import Mathlib

/-!
Shallow embedding of the checkpointed ingestion engine in
`server/script/populate.py` and its driver `server/script/start.py`.

The document store (MongoDB in the source) is modelled as an explicit
`Store` value threaded through every operation; collections are lists of
documents in insertion order, `find_one` is `List.find?` (first match),
`update_one` updates the first match, and `insert_many` appends with fresh
surrogate ids drawn from a counter.  The two outbound HTTP calls are
modelled as oracles passed in as parameters: `lookup` (restcountries name
lookup, `none` = request failed) and `api` (OpenAlex page fetch, `none` =
transport/protocol error).  Wall-clock timestamps (`last_synced_date`,
`updatedAt`, `openalex_last_updated`) are omitted: no claim mentions them.
Observable ordering of side effects is recorded as a trace of `Event`s,
emitted in the program order of the source.
-/

namespace AITalent

/-! ### Decimal rendering

Models Python's rendering of an integer inside an f-string (as in
`f"{base}-{counter}"` and `f"topic:{tid}"`).  Written with explicit fuel so
that it is structurally recursive and kernel-reducible; `natReprVal` is a
decoder used to prove injectivity. -/

def digitChar (d : Nat) : Char :=
  match d with
  | 0 => '0' | 1 => '1' | 2 => '2' | 3 => '3' | 4 => '4'
  | 5 => '5' | 6 => '6' | 7 => '7' | 8 => '8' | 9 => '9'
  | _ => 'x'

def digitVal (c : Char) : Nat :=
  match c with
  | '0' => 0 | '1' => 1 | '2' => 2 | '3' => 3 | '4' => 4
  | '5' => 5 | '6' => 6 | '7' => 7 | '8' => 8 | '9' => 9
  | _ => 10

def natReprAux : Nat → Nat → List Char
  | 0, _ => []
  | fuel + 1, n =>
    if n < 10 then [digitChar n]
    else natReprAux fuel (n / 10) ++ [digitChar (n % 10)]

def natRepr (n : Nat) : String := ⟨natReprAux (n + 1) n⟩

def natReprVal (l : List Char) : Nat := l.foldl (fun a c => a * 10 + digitVal c) 0

theorem digitVal_digitChar {d : Nat} (h : d < 10) : digitVal (digitChar d) = d := by
  interval_cases d <;> rfl

theorem natReprVal_append_singleton (l : List Char) (c : Char) :
    natReprVal (l ++ [c]) = natReprVal l * 10 + digitVal c := by
  simp [natReprVal, List.foldl_append]

theorem natReprVal_natReprAux : ∀ fuel n, n < fuel → natReprVal (natReprAux fuel n) = n := by
  intro fuel
  induction fuel with
  | zero => intro n h; omega
  | succ f ih =>
    intro n h
    by_cases hn : n < 10
    · simp [natReprAux, hn, natReprVal, digitVal_digitChar hn]
    · have hdiv : n / 10 < n := Nat.div_lt_self (by omega) (by omega)
      have : n / 10 < f := by omega
      simp only [natReprAux, hn, if_false, natReprVal_append_singleton]
      rw [ih (n / 10) this, digitVal_digitChar (Nat.mod_lt n (by omega))]
      omega

theorem natRepr_injective : Function.Injective natRepr := by
  intro a b h
  have hd : natReprAux (a + 1) a = natReprAux (b + 1) b := congrArg String.data h
  have ha := natReprVal_natReprAux (a + 1) a (by omega)
  have hb := natReprVal_natReprAux (b + 1) b (by omega)
  rw [hd] at ha
  omega

theorem natReprAux_ne_nil (fuel n : Nat) : natReprAux (fuel + 1) n ≠ [] := by
  by_cases hn : n < 10 <;> simp [natReprAux, hn]

theorem natRepr_length_pos (n : Nat) : 0 < (natRepr n).length := by
  have := natReprAux_ne_nil n n
  simp only [natRepr, String.length]
  exact List.length_pos.mpr this

/-! ### Character-level string helpers

`lowerChars`/`upperChars` model Python `str.lower()`/`str.upper()` (on the
alphabet the pipeline actually meets); `trimChars` models `str.strip()`.
They work on `String.data` directly so that everything kernel-reduces. -/

def lowerString (s : String) : String := ⟨s.data.map Char.toLower⟩

def upperString (s : String) : String := ⟨s.data.map Char.toUpper⟩

def trimString (s : String) : String :=
  ⟨((s.data.dropWhile Char.isWhitespace).reverse.dropWhile Char.isWhitespace).reverse⟩

/-- Models Python's `\w` character class (word character). -/
def isWordChar (c : Char) : Bool := c.isAlphanum || c = '_'

/-- Replace every maximal run of characters satisfying `p` by the single
character `rep`; `inRun` records whether the previous character was in a
run.  `collapseRuns p rep false` models `re.sub(p"+", rep, ·)`. -/
def collapseRuns (p : Char → Bool) (rep : Char) : Bool → List Char → List Char
  | _, [] => []
  | inRun, c :: cs =>
    if p c then
      if inRun then collapseRuns p rep true cs
      else rep :: collapseRuns p rep true cs
    else c :: collapseRuns p rep false cs

/-- Trim every leading and trailing `'-'`, modelling `str.strip("-")`. -/
def stripHyphens (l : List Char) : List Char :=
  ((l.dropWhile (· = '-')).reverse.dropWhile (· = '-')).reverse

/-! ### Data model

Documents of the five collections.  Surrogate `_id`s (Mongo ObjectIds in
the source) are modelled as naturals drawn from `Store.nextId`; the Country
collection keys documents by their ISO code string, exactly as the source
does (`"_id": country_code`).  Floating point does not occur in any claim;
`two_year_mean_citedness` is carried as a natural. -/

structure CountryDoc where
  id : String
  display_name : String
  deriving DecidableEq, Repr

structure FieldDoc where
  id : Nat
  display_name : String
  deriving DecidableEq, Repr

structure SyncStatus where
  cursor : String
  researchers_count : Nat
  deriving DecidableEq, Repr

structure TopicDoc where
  id : Nat
  display_name : String
  field_id : Option Nat
  sync_status : SyncStatus
  deriving DecidableEq, Repr

structure InstitutionDoc where
  id : Nat
  display_name : String
  ror : String
  country_id : Option String
  deriving DecidableEq, Repr

structure Affiliation where
  institution : Nat
  years : List Int
  deriving DecidableEq, Repr

structure Identifiers where
  openalex : String
  orcid : String
  deriving DecidableEq, Repr

structure ResearchMetrics where
  h_index : Nat
  i10_index : Nat
  two_year_mean_citedness : Nat
  total_citations : Nat
  total_works : Nat
  deriving DecidableEq, Repr

structure CitationTrend where
  year : Option Int
  works_count : Option Int
  cited_by_count : Option Int
  deriving DecidableEq, Repr

/-- A Researcher Profile document, as assembled by `map_author_to_profile`;
`slug` is absent from the mapped dict and only set at insert time by the
walker. -/
structure Profile where
  name : String
  affiliations : List Affiliation
  identifiers : Identifiers
  research_metrics : ResearchMetrics
  topics : List Nat
  citation_trends : List CitationTrend
  last_known_affiliations : List Nat
  search_tags : List String
  slug : Option String
  deriving DecidableEq, Repr

structure Store where
  researchers : List Profile
  topics : List TopicDoc
  fields : List FieldDoc
  institutions : List InstitutionDoc
  countries : List CountryDoc
  nextId : Nat
  deriving DecidableEq, Repr

/-! Raw OpenAlex payload shapes: only the fields the mapper reads.  A raw
field absent from the JSON is `none` / the empty string, matching the
source's `x.get(k, default) or default` reads. -/

structure RawInstitution where
  ror : String
  display_name : String
  country_code : String
  deriving DecidableEq, Repr

structure RawAffiliation where
  institution : RawInstitution
  years : List Int
  deriving DecidableEq, Repr

structure RawField where
  display_name : String
  deriving DecidableEq, Repr

structure RawTopic where
  display_name : String
  field : Option RawField
  deriving DecidableEq, Repr

structure RawCounts where
  year : Option Int
  works_count : Option Int
  cited_by_count : Option Int
  deriving DecidableEq, Repr

structure RawStats where
  h_index : Option Nat
  i10_index : Option Nat
  two_year_mean_citedness : Option Nat
  deriving DecidableEq, Repr

structure RawAuthor where
  id : String
  display_name : String
  orcid : String
  affiliations : List RawAffiliation
  last_known_institutions : List RawInstitution
  topics : List RawTopic
  summary_stats : RawStats
  counts_by_year : List RawCounts
  cited_by_count : Option Nat
  works_count : Option Nat
  deriving DecidableEq, Repr

/-- One page of the paginated catalog: a result list and an optional
continuation token (`meta.next_cursor`). -/
structure Page where
  results : List RawAuthor
  next_cursor : Option String
  deriving DecidableEq, Repr

/-- The capacity limits of `config.py` (`PER_PAGE` only shapes the request
and is immaterial here: the page oracle decides what a page contains). -/
structure Config where
  MAX_PER_TOPIC : Nat
  SESSION_LIMIT : Nat
  MAX_AUTHORS : Nat
  deriving DecidableEq, Repr

/-- Observable side effects, emitted in the program order of the source.
`partitionInc` is `current_count += 1` (carrying the new value),
`sessionInc` is `global_counter["inserted"] += n`, `topicCountWrite` is any
write of a topic's `sync_status.researchers_count`, and `checkpoint` is the
walker's end-of-page `sync_status` upsert. -/
inductive Event where
  | fetchPage (cursor : String)
  | fetchError
  | partitionInc (newCount : Nat)
  | insertBatch (n : Nat)
  | sessionInc (n : Nat)
  | topicCountWrite (topicId : Nat) (count : Nat)
  | checkpoint (cursor : String) (count : Nat)
  deriving DecidableEq, Repr

/-! ### Document-store primitives (`db.py`)

`find_one` returns the first document in natural (insertion) order;
`update_one` updates the first match. -/

def findCountryById (st : Store) (code : String) : Option CountryDoc :=
  st.countries.find? (fun c => c.id == code)

def findFieldByName (st : Store) (name : String) : Option FieldDoc :=
  st.fields.find? (fun f => f.display_name == name)

def findTopicByName (st : Store) (name : String) : Option TopicDoc :=
  st.topics.find? (fun t => t.display_name == name)

def findInstitutionByRor (st : Store) (ror : String) : Option InstitutionDoc :=
  st.institutions.find? (fun i => i.ror == ror)

def findResearcherByOrcid (st : Store) (orcid : String) : Option Profile :=
  st.researchers.find? (fun r => r.identifiers.orcid == orcid)

/-- `col.find_one({"slug": slug})` on the researchers collection. -/
def slugExistsIn (researchers : List Profile) (s : String) : Bool :=
  researchers.any (fun r => r.slug == some s)

/-- `update_one({"_id": tid}, {"$set": {"sync_status": sync}})`: replace the
`sync_status` of the first topic with the given id. -/
def updateFirstTopicById (ts : List TopicDoc) (tid : Nat) (sync : SyncStatus) : List TopicDoc :=
  match ts with
  | [] => []
  | t :: rest =>
    if t.id == tid then { t with sync_status := sync } :: rest
    else t :: updateFirstTopicById rest tid sync

/-- Association-list read, first match (models a Python dict built by
repeated assignment, where the walker only ever reads the latest binding). -/
def alistLookup (l : List (String × Nat)) (k : String) : Option Nat :=
  (l.find? (fun p => p.1 == k)).map (fun p => p.2)

/-- `{doc["display_name"]: doc for doc in existing}[name]`: in a Python dict
comprehension the LAST document with a given name wins. -/
def lookupLastTopic (docs : List TopicDoc) (name : String) : Option TopicDoc :=
  docs.reverse.find? (fun t => t.display_name == name)

/-! ### Slug helpers (`populate.py` lines 25-48) -/

/-- `_generate_slug`: lowercase, `strip()`, drop characters outside
`\w`/whitespace/hyphen, collapse whitespace runs to single hyphens,
collapse hyphen runs, trim leading and trailing hyphens. -/
def _generate_slug (name : String) : String :=
  if name = "" then ""
  else
    let s := (trimString (lowerString name)).data
    let s := s.filter (fun c => isWordChar c || c.isWhitespace || c = '-')
    let s := collapseRuns Char.isWhitespace '-' false s
    let s := collapseRuns (fun c => c = '-') '-' false s
    ⟨stripHyphens s⟩

/-- The k-th probed candidate: the base slug itself, then
`f"{base}-{counter}"` for `counter = 1, 2, ...`. -/
def slugCand (base : String) : Nat → String
  | 0 => base
  | k + 1 => base ++ "-" ++ natRepr (k + 1)

/-- The probing loop of `_generate_unique_slug`: return the current
candidate when it is neither reserved nor present in the collection, else
move to the next suffix.  The source loop is `while True`; the fuel is set
by the caller high enough that it provably never runs out
(`probeSlug_not_occupied`), and the out-of-fuel branch is dead code. -/
def probeSlug (researchers : List Profile) (reserved : List String) (base : String) :
    Nat → Nat → String
  | 0, k => slugCand base k
  | fuel + 1, k =>
    let slug := slugCand base k
    if reserved.contains slug || slugExistsIn researchers slug then
      probeSlug researchers reserved base fuel (k + 1)
    else slug

/-- `_generate_unique_slug(name, col, reserved)`: derive the base slug and
probe suffixes `-1, -2, ...` until the candidate is neither in `reserved`
nor already present in the collection. -/
def _generate_unique_slug (name : String) (researchers : List Profile)
    (reserved : List String) : String :=
  let base := _generate_slug name
  probeSlug researchers reserved base (reserved.length + researchers.length + 1) 0

/-! ### Reference upserts (`populate.py` lines 51-138) -/

/-- `upsert_country`: normalize the code to upper case; if the country
document exists return its `_id`; otherwise attempt the restcountries
lookup (`lookup code = none` models a failed request, in which case the
display name falls back to the code itself), insert, and return the code. -/
def upsert_country (lookup : String → Option String) (st : Store)
    (country_code : String) : Option String × Store :=
  if country_code = "" then (none, st)
  else
    let code := upperString country_code
    match findCountryById st code with
    | some existing => (some existing.id, st)
    | none =>
      let display_name := (lookup code).getD code
      (some code,
        { st with countries := st.countries ++ [{ id := code, display_name := display_name }] })

/-- `upsert_field`: upsert a Field by display name and return its `_id`. -/
def upsert_field (st : Store) (field_name : String) : Nat × Store :=
  match findFieldByName st field_name with
  | some f => (f.id, st)
  | none =>
    let fid := st.nextId
    (fid,
      { st with fields := st.fields ++ [{ id := fid, display_name := field_name }],
                nextId := st.nextId + 1 })

/-! ### `process_researcher_topics` (`populate.py` lines 140-204) -/

structure PRTAcc where
  st : Store
  final_topic_ids : List Nat
  missing_docs : List (String × Nat)
  search_tags : List String
  added_fields : List Nat
  counts : List (String × Nat)
  trace : List Event
  deriving Repr

/-- The body of the `for topic in topics` loop.  `snapshot` is the batch
`find_documents` result taken before the loop.  The source mutates the
`sync` dict held in `existing_map` in place, so a second mention of the
same topic name sees the already-incremented count: `counts` carries those
in-place mutations, keyed by display name. -/
def prtStep (snapshot : List TopicDoc) (acc : PRTAcc) (topic : RawTopic) : PRTAcc :=
  let display_name := topic.display_name
  let field_data := (topic.field.map (fun f => f.display_name)).getD ""
  let (field_id, st1) := upsert_field acc.st field_data
  let (tags1, added1) :=
    if field_id ∈ acc.added_fields then (acc.search_tags, acc.added_fields)
    else (acc.search_tags ++ ["field:" ++ natRepr field_id], acc.added_fields ++ [field_id])
  match lookupLastTopic snapshot display_name with
  | some doc =>
    let cur := (alistLookup acc.counts display_name).getD doc.sync_status.researchers_count
    let newCount := cur + 1
    let sync : SyncStatus := { cursor := doc.sync_status.cursor, researchers_count := newCount }
    { st := { st1 with topics := updateFirstTopicById st1.topics doc.id sync }
      final_topic_ids := acc.final_topic_ids ++ [doc.id]
      missing_docs := acc.missing_docs
      search_tags := tags1 ++ ["topic:" ++ natRepr doc.id]
      added_fields := added1
      counts := (display_name, newCount) :: acc.counts
      trace := acc.trace ++ [Event.topicCountWrite doc.id newCount] }
  | none =>
    { st := st1
      final_topic_ids := acc.final_topic_ids
      missing_docs := acc.missing_docs ++ [(display_name, field_id)]
      search_tags := tags1
      added_fields := added1
      counts := acc.counts
      trace := acc.trace }

/-- Bulk insert of the missing topic documents (count starts at 1), with
fresh ids; returns `inserted_ids`. -/
def insertTopicDocs : Store → List (String × Nat) → List Nat × Store
  | st, [] => ([], st)
  | st, (name, fid) :: rest =>
    let tid := st.nextId
    let doc : TopicDoc :=
      { id := tid, display_name := name, field_id := some fid,
        sync_status := { cursor := "*", researchers_count := 1 } }
    let (ids, st') :=
      insertTopicDocs { st with topics := st.topics ++ [doc], nextId := st.nextId + 1 } rest
    (tid :: ids, st')

structure PRTResult where
  topic_ids : List Nat
  search_tags : List String
  st : Store
  trace : List Event
  deriving Repr

/-- `process_researcher_topics`: batch-check which of the researcher's
topics already exist, increment each existing topic's
`sync_status.researchers_count` once per raw mention, queue the missing
ones for bulk insert with a count of 1, and collect `field:`/`topic:`
search tags. -/
def process_researcher_topics (st : Store) (topics : List RawTopic) : PRTResult :=
  let topic_names := topics.map (fun t => t.display_name)
  let existing := st.topics.filter (fun t => topic_names.contains t.display_name)
  let acc := topics.foldl (prtStep existing)
    { st := st, final_topic_ids := [], missing_docs := [], search_tags := [],
      added_fields := [], counts := [], trace := [] }
  let (inserted_ids, st2) := insertTopicDocs acc.st acc.missing_docs
  { topic_ids := acc.final_topic_ids ++ inserted_ids
    search_tags := acc.search_tags ++ inserted_ids.map (fun tid => "topic:" ++ natRepr tid)
    st := st2
    trace := acc.trace }

/-! ### `map_author_to_profile` (`populate.py` lines 210-326) -/

structure AffState where
  st : Store
  affiliations : List Affiliation
  search_tags : List String
  added_countries : List String
  ror_to_id : List (String × Nat)
  deriving Repr

/-- Body of the affiliations loop.  The institution key is the ROR, falling
back to the display name; an entry with neither is skipped.  When the key
is already cached in `ror_to_id` the source leaves `country_id = None`, so
no country tag is appended for cached hits. -/
def affStep (lookup : String → Option String) (acc : AffState) (aff : RawAffiliation) :
    AffState :=
  let inst := aff.institution
  let years := aff.years
  let ror := if inst.ror ≠ "" then inst.ror else inst.display_name
  if ror = "" then acc
  else
    match alistLookup acc.ror_to_id ror with
    | some iid =>
      { acc with
        affiliations := acc.affiliations ++ [{ institution := iid, years := years }]
        search_tags := acc.search_tags ++ ["institution:" ++ natRepr iid] }
    | none =>
      let (iid, country_id, st2) : Nat × Option String × Store :=
        match findInstitutionByRor acc.st ror with
        | some existing => (existing.id, existing.country_id, acc.st)
        | none =>
          let (cid, st1) := upsert_country lookup acc.st inst.country_code
          let iid := st1.nextId
          (iid, cid,
            { st1 with
              institutions := st1.institutions ++
                [{ id := iid, display_name := inst.display_name, ror := ror, country_id := cid }]
              nextId := st1.nextId + 1 })
      let tags1 := acc.search_tags ++ ["institution:" ++ natRepr iid]
      let (tags2, added2) :=
        match country_id with
        | some cid =>
          if cid ≠ "" ∧ cid ∉ acc.added_countries then
            (tags1 ++ ["country:" ++ cid], acc.added_countries ++ [cid])
          else (tags1, acc.added_countries)
        | none => (tags1, acc.added_countries)
      { st := st2
        affiliations := acc.affiliations ++ [{ institution := iid, years := years }]
        search_tags := tags2
        added_countries := added2
        ror_to_id := (ror, iid) :: acc.ror_to_id }

structure LKState where
  st : Store
  last_known : List Nat
  ror_to_id : List (String × Nat)
  deriving Repr

/-- Body of the `last_known_institutions` loop: same find-or-create keyed by
ROR-or-name, but contributing no search tags and no years. -/
def lkStep (lookup : String → Option String) (acc : LKState) (inst : RawInstitution) :
    LKState :=
  let ror := if inst.ror ≠ "" then inst.ror else inst.display_name
  if ror = "" then acc
  else
    match alistLookup acc.ror_to_id ror with
    | some iid => { acc with last_known := acc.last_known ++ [iid] }
    | none =>
      let (iid, st2) : Nat × Store :=
        match findInstitutionByRor acc.st ror with
        | some existing => (existing.id, acc.st)
        | none =>
          let (cid, st1) := upsert_country lookup acc.st inst.country_code
          let iid := st1.nextId
          (iid,
            { st1 with
              institutions := st1.institutions ++
                [{ id := iid, display_name := inst.display_name, ror := ror, country_id := cid }]
              nextId := st1.nextId + 1 })
      { st := st2
        last_known := acc.last_known ++ [iid]
        ror_to_id := (ror, iid) :: acc.ror_to_id }

structure MapResult where
  profile : Profile
  st : Store
  trace : List Event
  deriving Repr

/-- `map_author_to_profile`: resolve every affiliation and last-known
institution (and transitively its country), resolve every topic (with the
researchers-count side effect of `process_researcher_topics`), copy the
metric fields with zero defaults, and assemble the profile and its
`search_tags`.  Timestamp fields are omitted from the model. -/
def map_author_to_profile (lookup : String → Option String) (st : Store)
    (author : RawAuthor) : MapResult :=
  let affRes := author.affiliations.foldl (affStep lookup)
    { st := st, affiliations := [], search_tags := [], added_countries := [], ror_to_id := [] }
  let lkRes := author.last_known_institutions.foldl (lkStep lookup)
    { st := affRes.st, last_known := [], ror_to_id := affRes.ror_to_id }
  let prt := process_researcher_topics lkRes.st author.topics
  let stats := author.summary_stats
  let profile : Profile :=
    { name := author.display_name
      affiliations := affRes.affiliations
      identifiers := { openalex := author.id, orcid := author.orcid }
      research_metrics :=
        { h_index := stats.h_index.getD 0
          i10_index := stats.i10_index.getD 0
          two_year_mean_citedness := stats.two_year_mean_citedness.getD 0
          total_citations := author.cited_by_count.getD 0
          total_works := author.works_count.getD 0 }
      topics := prt.topic_ids
      citation_trends := author.counts_by_year.map
        (fun e => { year := e.year, works_count := e.works_count,
                    cited_by_count := e.cited_by_count })
      last_known_affiliations := lkRes.last_known
      search_tags := affRes.search_tags ++ prt.search_tags
      slug := none }
  { profile := profile, st := prt.st, trace := prt.trace }

/-! ### The partition walker (`populate.py` lines 331-457) -/

structure TopicRef where
  display_name : String
  oa_id : String
  deriving DecidableEq, Repr

structure BatchResult where
  new_docs : List Profile
  current_count : Nat
  reserved : List String
  st : Store
  trace : List Event
  deriving Repr

/-- The `for author in authors` loop of one page.  `sessionAtPage` is
`global_counter["inserted"]`, which the source does NOT update inside the
page (the batch increment happens only after `insert_many`), so the
per-record session/DB cap checks compare against the page-start value;
only `current_count` advances per record.  A record with an empty ORCID,
or one whose ORCID already exists in the researchers collection, is
skipped before any mapping work. -/
def processAuthors (cfg : Config) (lookup : String → Option String)
    (total_in_db sessionAtPage : Nat) :
    List RawAuthor → Store → Nat → List String → BatchResult
  | [], st, current_count, reserved =>
    { new_docs := [], current_count := current_count, reserved := reserved, st := st, trace := [] }
  | author :: rest, st, current_count, reserved =>
    if sessionAtPage ≥ cfg.SESSION_LIMIT then
      { new_docs := [], current_count := current_count, reserved := reserved, st := st, trace := [] }
    else if total_in_db + sessionAtPage ≥ cfg.MAX_AUTHORS then
      { new_docs := [], current_count := current_count, reserved := reserved, st := st, trace := [] }
    else if current_count ≥ cfg.MAX_PER_TOPIC then
      { new_docs := [], current_count := current_count, reserved := reserved, st := st, trace := [] }
    else
      let orcid := author.orcid
      if orcid = "" then
        processAuthors cfg lookup total_in_db sessionAtPage rest st current_count reserved
      else if (findResearcherByOrcid st orcid).isSome then
        processAuthors cfg lookup total_in_db sessionAtPage rest st current_count reserved
      else
        let mres := map_author_to_profile lookup st author
        let nm := trimString mres.profile.name
        let (mapped2, reserved2) : Profile × List String :=
          if nm ≠ "" then
            let slug := _generate_unique_slug nm mres.st.researchers reserved
            if slug ≠ "" then ({ mres.profile with slug := some slug }, slug :: reserved)
            else (mres.profile, reserved)
          else (mres.profile, reserved)
        let restRes := processAuthors cfg lookup total_in_db sessionAtPage rest mres.st
          (current_count + 1) reserved2
        { new_docs := mapped2 :: restRes.new_docs
          current_count := restRes.current_count
          reserved := restRes.reserved
          st := restRes.st
          trace := mres.trace ++ [Event.partitionInc (current_count + 1)] ++ restRes.trace }

/-- The end-of-page progress save:
`upsert_document_new(COL_TOPICS, {"display_name": ...}, {"sync_status": ...}, {})`:
replace the `sync_status` of the first topic with that display name
(inserting a bare topic document if none matches).  Returns the id of the
affected document so the write can be traced. -/
def checkpointWrite (st : Store) (display_name : String) (sync : SyncStatus) : Store × Nat :=
  match findTopicByName st display_name with
  | some t => ({ st with topics := updateFirstTopicById st.topics t.id sync }, t.id)
  | none =>
    let tid := st.nextId
    ({ st with
        topics := st.topics ++
          [{ id := tid, display_name := display_name, field_id := none, sync_status := sync }]
        nextId := st.nextId + 1 }, tid)

structure WalkResult where
  st : Store
  session : Nat
  trace : List Event
  deriving Repr

/-- The `while True` page loop.  Each iteration re-checks the three caps,
fetches one page at the current cursor (`api ... = none` is the
`except` path: log and break, changing nothing), breaks on an empty result
list, runs the per-record loop, batch-inserts the surviving docs and bumps
the session counter, then breaks if the continuation token is falsy
(`None` or `""`) — NOT saving progress in that case — and otherwise
persists `{cursor, researchers_count}` and continues.  Fuel only bounds the
number of iterations of the source's unbounded loop. -/
def fetchLoop (cfg : Config) (lookup : String → Option String)
    (api : String → String → Option Page) :
    Nat → String → String → Nat → Store → Nat → Nat → List String → String → WalkResult
  | 0, _, _, _, st, session, _, _, _ => { st := st, session := session, trace := [] }
  | fuel + 1, display_name, oa_id, total_in_db, st, session, current_count, reserved, cursor =>
    if session ≥ cfg.SESSION_LIMIT then { st := st, session := session, trace := [] }
    else if total_in_db + session ≥ cfg.MAX_AUTHORS then
      { st := st, session := session, trace := [] }
    else if current_count ≥ cfg.MAX_PER_TOPIC then { st := st, session := session, trace := [] }
    else
      match api oa_id cursor with
      | none => { st := st, session := session, trace := [Event.fetchPage cursor, Event.fetchError] }
      | some page =>
        if page.results.isEmpty then
          { st := st, session := session, trace := [Event.fetchPage cursor] }
        else
          let batch := processAuthors cfg lookup total_in_db session page.results st
            current_count reserved
          let (st2, session2, insEvents) :=
            if batch.new_docs.isEmpty then (batch.st, session, ([] : List Event))
            else
              ({ batch.st with researchers := batch.st.researchers ++ batch.new_docs },
               session + batch.new_docs.length,
               [Event.insertBatch batch.new_docs.length, Event.sessionInc batch.new_docs.length])
          let pageEvents := Event.fetchPage cursor :: (batch.trace ++ insEvents)
          match page.next_cursor with
          | none => { st := st2, session := session2, trace := pageEvents }
          | some c =>
            if c = "" then { st := st2, session := session2, trace := pageEvents }
            else
              let saved := checkpointWrite st2 display_name
                { cursor := c, researchers_count := batch.current_count }
              let rest := fetchLoop cfg lookup api fuel display_name oa_id total_in_db
                saved.1 session2 batch.current_count batch.reserved c
              { st := rest.st
                session := rest.session
                trace := pageEvents ++
                  [Event.topicCountWrite saved.2 batch.current_count,
                   Event.checkpoint c batch.current_count] ++ rest.trace }

/-- `fetch_authors_for_topic`: check the DB cap (a fresh `count_documents`)
and the session cap, load the topic's `sync_status` (cursor and
`researchers_count`, with fresh-start defaults), check the topic cap, then
run the page loop with an empty reserved-slug set. -/
def fetch_authors_for_topic (cfg : Config) (lookup : String → Option String)
    (api : String → String → Option Page) (fuel : Nat) (topic : TopicRef)
    (st : Store) (sessionInserted : Nat) : WalkResult :=
  let total_in_db := st.researchers.length
  if total_in_db ≥ cfg.MAX_AUTHORS then { st := st, session := sessionInserted, trace := [] }
  else if sessionInserted ≥ cfg.SESSION_LIMIT then
    { st := st, session := sessionInserted, trace := [] }
  else
    let sync := match findTopicByName st topic.display_name with
      | some t => t.sync_status
      | none => { cursor := "*", researchers_count := 0 }
    if sync.researchers_count ≥ cfg.MAX_PER_TOPIC then
      { st := st, session := sessionInserted, trace := [] }
    else
      fetchLoop cfg lookup api fuel topic.display_name topic.oa_id total_in_db st
        sessionInserted sync.researchers_count [] sync.cursor

/-- The per-topic loop of `start.py main()`: walk each partition in turn,
threading the store and the shared session counter. -/
def runTopics (cfg : Config) (lookup : String → Option String)
    (api : String → String → Option Page) (fuel : Nat) :
    List TopicRef → Store → Nat → WalkResult
  | [], st, session => { st := st, session := session, trace := [] }
  | t :: rest, st, session =>
    let r := fetch_authors_for_topic cfg lookup api fuel t st session
    let r' := runTopics cfg lookup api fuel rest r.st r.session
    { st := r'.st, session := r'.session, trace := r.trace ++ r'.trace }

/-! ### Trace observations

Decidable predicates and measures over event traces, used to state the
ordering claims. -/

/-- Number of `partitionInc` events (per-record `current_count += 1`). -/
def numAdmits : List Event → Nat
  | [] => 0
  | Event.partitionInc _ :: r => numAdmits r + 1
  | _ :: r => numAdmits r

/-- Total number of researcher documents batch-inserted. -/
def numInserted : List Event → Nat
  | [] => 0
  | Event.insertBatch n :: r => numInserted r + n
  | _ :: r => numInserted r

/-- `true` iff every `sessionInc n` is immediately preceded by an
`insertBatch n` of the same size: the session counter moves only at the
moment a batch insert returns, and by exactly the batch size.  The first
argument is the size of the immediately preceding `insertBatch`, if the
previous event was one (`none` at the start of a trace). -/
def sessionIncOk : Option Nat → List Event → Bool
  | _, [] => true
  | prev, Event.sessionInc n :: r =>
    (match prev with | some m => n == m | none => false) && sessionIncOk none r
  | _, Event.insertBatch n :: r => sessionIncOk (some n) r
  | _, _ :: r => sessionIncOk none r

/-- The `sessionIncOk` state after scanning a trace. -/
def lastInsertState : Option Nat → List Event → Option Nat
  | s, [] => s
  | _, Event.insertBatch n :: r => lastInsertState (some n) r
  | _, _ :: r => lastInsertState none r

/-- `true` iff some `partitionInc` happens strictly before the first
`insertBatch` of the trace (i.e. an admission counter moved while no record
was yet durably committed). -/
def admitBeforeInsert : List Event → Bool
  | [] => false
  | Event.insertBatch _ :: _ => false
  | Event.partitionInc _ :: _ => true
  | _ :: r => admitBeforeInsert r

/-- Running count of records admitted into the current page's batch but not
yet covered by a batch insert. -/
def pendingAfter : Nat → List Event → Nat
  | p, [] => p
  | p, Event.partitionInc _ :: r => pendingAfter (p + 1) r
  | p, Event.insertBatch n :: r => pendingAfter (p - n) r
  | p, _ :: r => pendingAfter p r

/-- `true` iff every `checkpoint` event happens with zero pending admitted
records: the progress save is never written before the page's records have
been handed to the batch insert. -/
def checkpointsAfterInsert : Nat → List Event → Bool
  | _, [] => true
  | p, Event.partitionInc _ :: r => checkpointsAfterInsert (p + 1) r
  | p, Event.insertBatch n :: r => checkpointsAfterInsert (p - n) r
  | p, Event.checkpoint _ _ :: r => p == 0 && checkpointsAfterInsert p r
  | p, _ :: r => checkpointsAfterInsert p r

/-- `true` iff no page fetch happens while an earlier batch insert is not
yet covered by a checkpoint write (flag = such an insert is pending): every
non-final inserted page is checkpointed before the next fetch. -/
def fetchNeedsCheckpoint : Bool → List Event → Bool
  | _, [] => true
  | _, Event.insertBatch _ :: r => fetchNeedsCheckpoint true r
  | _, Event.checkpoint _ _ :: r => fetchNeedsCheckpoint false r
  | flag, Event.fetchPage _ :: r => !flag && fetchNeedsCheckpoint flag r
  | flag, _ :: r => fetchNeedsCheckpoint flag r

/-- The `fetchNeedsCheckpoint` flag after scanning a trace. -/
def flagAfter : Bool → List Event → Bool
  | _, Event.insertBatch _ :: r => flagAfter true r
  | _, Event.checkpoint _ _ :: r => flagAfter false r
  | flag, _ :: r => flagAfter flag r
  | flag, [] => flag

/-- `true` iff the trace consists only of topic researchers-count writes
(the trace shape of `process_researcher_topics`). -/
def onlyTopicWrites (tr : List Event) : Bool :=
  tr.all fun e => match e with | Event.topicCountWrite _ _ => true | _ => false

/-- `true` iff the trace consists only of topic count writes and per-record
admissions (the trace shape of the per-record loop of a page). -/
def pageBody (tr : List Event) : Bool :=
  tr.all fun e => match e with
    | Event.topicCountWrite _ _ => true
    | Event.partitionInc _ => true
    | _ => false

def hasInsertEvent (tr : List Event) : Bool :=
  tr.any fun e => match e with | Event.insertBatch _ => true | _ => false

def hasCheckpointEvent (tr : List Event) : Bool :=
  tr.any fun e => match e with | Event.checkpoint _ _ => true | _ => false

def hasSessionIncEvent (tr : List Event) : Bool :=
  tr.any fun e => match e with | Event.sessionInc _ => true | _ => false

/-- The successive values written to topic `tid`'s
`sync_status.researchers_count`, in trace order (by either writer: the
per-mention increment or the walker's checkpoint). -/
def countWritesTo (tid : Nat) : List Event → List Nat
  | [] => []
  | Event.topicCountWrite t c :: r => if t == tid then c :: countWritesTo tid r else countWritesTo tid r
  | _ :: r => countWritesTo tid r

/-- `true` iff a list of naturals is nondecreasing left to right. -/
def nondecreasing : List Nat → Bool
  | [] => true
  | [_] => true
  | a :: b :: r => a ≤ b && nondecreasing (b :: r)

/-! ### Shared concrete inputs for scenario evaluation -/

def noLookup : String → Option String := fun _ => none

def emptyStore : Store := ⟨[], [], [], [], [], 0⟩

def emptyStats : RawStats := ⟨none, none, none⟩

/-- A raw author with the given name, ORCID, affiliations and topics, and
no other payload. -/
def mkAuthor (name orcid : String) (affs : List RawAffiliation) (ts : List RawTopic) :
    RawAuthor :=
  { id := "", display_name := name, orcid := orcid, affiliations := affs,
    last_known_institutions := [], topics := ts, summary_stats := emptyStats,
    counts_by_year := [], cited_by_count := none, works_count := none }

/-- The occupancy check of `_generate_unique_slug`'s loop: a candidate is
unavailable when it is in the `reserved` set or a researcher document
already carries it. -/
def slugTaken (researchers : List Profile) (reserved : List String) (s : String) : Bool :=
  reserved.contains s || slugExistsIn researchers s

/-! ### Structural lemmas: which collections each operation can touch -/

theorem foldl_preserve {α β γ : Type _} (f : β → α → β) (g : β → γ)
    (h : ∀ b a, g (f b a) = g b) : ∀ (l : List α) (b : β), g (l.foldl f b) = g b := by
  intro l
  induction l with
  | nil => intro b; rfl
  | cons a t ih => intro b; rw [List.foldl_cons, ih, h]

theorem upsert_country_researchers (lookup : String → Option String) (st : Store)
    (c : String) : (upsert_country lookup st c).2.researchers = st.researchers := by
  simp only [upsert_country]
  split
  · rfl
  · split <;> rfl

theorem upsert_field_researchers (st : Store) (n : String) :
    (upsert_field st n).2.researchers = st.researchers := by
  simp only [upsert_field]
  split <;> rfl

theorem prtStep_researchers (snapshot : List TopicDoc) (acc : PRTAcc) (t : RawTopic) :
    (prtStep snapshot acc t).st.researchers = acc.st.researchers := by
  simp only [prtStep]
  split <;> simp [upsert_field_researchers]

theorem insertTopicDocs_researchers :
    ∀ (docs : List (String × Nat)) (st : Store),
      (insertTopicDocs st docs).2.researchers = st.researchers := by
  intro docs
  induction docs with
  | nil => intro st; rfl
  | cons d rest ih =>
    intro st
    obtain ⟨name, fid⟩ := d
    simp only [insertTopicDocs]
    exact ih _

theorem process_researcher_topics_researchers (st : Store) (ts : List RawTopic) :
    (process_researcher_topics st ts).st.researchers = st.researchers := by
  simp only [process_researcher_topics]
  rw [insertTopicDocs_researchers]
  exact foldl_preserve _ (fun a => a.st.researchers) (fun b a => prtStep_researchers _ b a) ts _

theorem affStep_researchers (lookup : String → Option String) (acc : AffState)
    (aff : RawAffiliation) : (affStep lookup acc aff).st.researchers = acc.st.researchers := by
  simp only [affStep]
  repeat' split
  all_goals simp [upsert_country_researchers]

theorem lkStep_researchers (lookup : String → Option String) (acc : LKState)
    (inst : RawInstitution) : (lkStep lookup acc inst).st.researchers = acc.st.researchers := by
  simp only [lkStep]
  repeat' split
  all_goals simp [upsert_country_researchers]

theorem map_author_to_profile_researchers (lookup : String → Option String) (st : Store)
    (author : RawAuthor) : (map_author_to_profile lookup st author).st.researchers
      = st.researchers := by
  simp only [map_author_to_profile]
  rw [process_researcher_topics_researchers]
  rw [foldl_preserve (lkStep lookup) (fun a => a.st.researchers)
    (fun b a => lkStep_researchers lookup b a)]
  exact foldl_preserve (affStep lookup) (fun a => a.st.researchers)
    (fun b a => affStep_researchers lookup b a) _ _

/-! ### Lemmas about the slug allocator -/

theorem slugCand_injective (base : String) : Function.Injective (slugCand base) := by
  intro j k h
  match j, k with
  | 0, 0 => rfl
  | 0, k + 1 =>
    exfalso
    have h1 := congrArg String.length h
    simp only [slugCand, String.length_append] at h1
    have := natRepr_length_pos (k + 1)
    omega
  | j + 1, 0 =>
    exfalso
    have h1 := congrArg String.length h
    simp only [slugCand, String.length_append] at h1
    have := natRepr_length_pos (j + 1)
    omega
  | j + 1, k + 1 =>
    have h1 : (base ++ "-").data ++ (natRepr (j + 1)).data
        = (base ++ "-").data ++ (natRepr (k + 1)).data := by
      have h0 := congrArg String.data h
      simpa [slugCand, String.data_append] using h0
    have h3 : natRepr (j + 1) = natRepr (k + 1) := String.ext (List.append_cancel_left h1)
    have := natRepr_injective h3
    omega

theorem exists_slugCand_not_mem (base : String) (occ : List String) :
    ∃ j, j ≤ occ.length ∧ slugCand base j ∉ occ := by
  by_contra hcon
  push_neg at hcon
  have hmaps : ∀ j ∈ Finset.range (occ.length + 1), slugCand base j ∈ occ.toFinset := by
    intro j hj
    rw [List.mem_toFinset]
    exact hcon j (by simpa [Nat.lt_succ_iff] using hj)
  have hinj : Set.InjOn (slugCand base) (Finset.range (occ.length + 1)) :=
    fun a _ b _ hab => slugCand_injective base hab
  have hcard := Finset.card_le_card_of_injOn (slugCand base) hmaps hinj
  have h1 : (Finset.range (occ.length + 1)).card = occ.length + 1 := Finset.card_range _
  have h2 := occ.toFinset_card_le
  omega

theorem contains_iff_mem {l : List String} {s : String} : l.contains s = true ↔ s ∈ l := by
  simp [List.contains_iff_exists_mem_beq]

theorem slugExistsIn_iff_mem (researchers : List Profile) (s : String) :
    slugExistsIn researchers s = true ↔ s ∈ researchers.filterMap Profile.slug := by
  simp only [slugExistsIn, List.any_eq_true, beq_iff_eq, List.mem_filterMap]

theorem slugTaken_iff_mem (researchers : List Profile) (reserved : List String) (s : String) :
    slugTaken researchers reserved s = true
      ↔ s ∈ reserved ++ researchers.filterMap Profile.slug := by
  simp only [slugTaken, Bool.or_eq_true, List.mem_append]
  rw [contains_iff_mem, slugExistsIn_iff_mem]

/-- If some candidate at or after the start index is available within the
fuel window, the probing loop stops at the FIRST available candidate. -/
theorem probeSlug_first_free (researchers : List Profile) (reserved : List String)
    (base : String) :
    ∀ fuel k, (∃ j, j < fuel ∧ slugTaken researchers reserved (slugCand base (k + j)) = false) →
      ∃ i, probeSlug researchers reserved base fuel k = slugCand base (k + i) ∧
        (∀ j, j < i → slugTaken researchers reserved (slugCand base (k + j)) = true) ∧
        slugTaken researchers reserved (slugCand base (k + i)) = false := by
  intro fuel
  induction fuel with
  | zero =>
    intro k h
    obtain ⟨j, hj, _⟩ := h
    omega
  | succ f ih =>
    intro k h
    obtain ⟨j, hj, hfree⟩ := h
    by_cases hk : slugTaken researchers reserved (slugCand base k) = true
    · have hj0 : j ≠ 0 := by
        intro h0
        rw [h0, Nat.add_zero] at hfree
        rw [hk] at hfree
        exact Bool.noConfusion hfree
      have hrec : ∃ j', j' < f ∧
          slugTaken researchers reserved (slugCand base (k + 1 + j')) = false := by
        refine ⟨j - 1, by omega, ?_⟩
        have : k + 1 + (j - 1) = k + j := by omega
        rw [this]
        exact hfree
      obtain ⟨i, hi1, hi2, hi3⟩ := ih (k + 1) hrec
      refine ⟨i + 1, ?_, ?_, ?_⟩
      · simp only [probeSlug, slugTaken] at hk ⊢
        rw [if_pos hk]
        have : k + 1 + i = k + (i + 1) := by omega
        rw [this] at hi1
        exact hi1
      · intro j' hj'
        cases j' with
        | zero => simpa using hk
        | succ j'' =>
          have : k + (j'' + 1) = k + 1 + j'' := by omega
          rw [this]
          exact hi2 j'' (by omega)
      · have : k + (i + 1) = k + 1 + i := by omega
        rw [this]
        exact hi3
    · refine ⟨0, ?_, ?_, ?_⟩
      · simp only [probeSlug, slugTaken] at hk ⊢
        rw [if_neg (by simpa using hk), Nat.add_zero]
      · intro j' hj'; omega
      · rw [Nat.add_zero]
        simpa using Bool.of_not_eq_true hk

/-- `_generate_unique_slug` returns the first candidate, in probing order
`base, base-1, base-2, ...`, that is neither reserved nor present in the
collection; in particular the result is always available. -/
theorem generate_unique_slug_spec (name : String) (researchers : List Profile)
    (reserved : List String) :
    ∃ k, _generate_unique_slug name researchers reserved
        = slugCand (_generate_slug name) k ∧
      (∀ j, j < k →
        slugTaken researchers reserved (slugCand (_generate_slug name) j) = true) ∧
      slugTaken researchers reserved
        (_generate_unique_slug name researchers reserved) = false := by
  have hocc := exists_slugCand_not_mem (_generate_slug name)
    (reserved ++ researchers.filterMap Profile.slug)
  obtain ⟨j, hjle, hjnot⟩ := hocc
  have hjfree : slugTaken researchers reserved (slugCand (_generate_slug name) j) = false := by
    rw [← Bool.not_eq_true]
    intro hc
    exact hjnot ((slugTaken_iff_mem researchers reserved _).mp hc)
  have hlen : (reserved ++ researchers.filterMap Profile.slug).length
      ≤ reserved.length + researchers.length := by
    rw [List.length_append]
    have := List.length_filterMap_le Profile.slug researchers
    omega
  have hfuel : j < reserved.length + researchers.length + 1 := by omega
  obtain ⟨i, hi1, hi2, hi3⟩ := probeSlug_first_free researchers reserved (_generate_slug name)
    (reserved.length + researchers.length + 1) 0 ⟨j, hfuel, by simpa using hjfree⟩
  refine ⟨i, ?_, ?_, ?_⟩
  · simpa [_generate_unique_slug] using hi1
  · intro j' hj'
    simpa using hi2 j' hj'
  · have : _generate_unique_slug name researchers reserved = slugCand (_generate_slug name) i := by
      simpa [_generate_unique_slug] using hi1
    rw [this]
    simpa using hi3

theorem map_author_to_profile_slug (lookup : String → Option String) (st : Store)
    (author : RawAuthor) : (map_author_to_profile lookup st author).profile.slug = none := by
  simp [map_author_to_profile]

theorem slugTaken_false_parts {researchers : List Profile} {reserved : List String} {s : String}
    (h : slugTaken researchers reserved s = false) :
    s ∉ reserved ∧ slugExistsIn researchers s = false := by
  have hor : reserved.contains s = false ∧ slugExistsIn researchers s = false := by
    simpa [slugTaken] using h
  refine ⟨?_, hor.2⟩
  intro hmem
  rw [contains_iff_mem.mpr hmem] at hor
  exact Bool.noConfusion hor.1

/-- The slugs of the documents accumulated for one batch insert are pairwise
distinct, disjoint from the reserved set the loop started with, and absent
from the researchers collection. -/
theorem processAuthors_slug_distinct (cfg : Config) (lookup : String → Option String)
    (tdb sap : Nat) :
    ∀ (authors : List RawAuthor) (st : Store) (cnt : Nat) (res : List String),
      ((processAuthors cfg lookup tdb sap authors st cnt res).new_docs.filterMap
        Profile.slug).Nodup ∧
      ∀ s ∈ (processAuthors cfg lookup tdb sap authors st cnt res).new_docs.filterMap
          Profile.slug, s ∉ res ∧ slugExistsIn st.researchers s = false := by
  intro authors
  induction authors with
  | nil => intro st cnt res; simp [processAuthors]
  | cons a rest ih =>
    intro st cnt res
    simp only [processAuthors]
    by_cases h1 : sap ≥ cfg.SESSION_LIMIT
    · rw [if_pos h1]; simp
    rw [if_neg h1]
    by_cases h2 : tdb + sap ≥ cfg.MAX_AUTHORS
    · rw [if_pos h2]; simp
    rw [if_neg h2]
    by_cases h3 : cnt ≥ cfg.MAX_PER_TOPIC
    · rw [if_pos h3]; simp
    rw [if_neg h3]
    by_cases h4 : a.orcid = ""
    · rw [if_pos h4]; exact ih st cnt res
    rw [if_neg h4]
    by_cases h5 : (findResearcherByOrcid st a.orcid).isSome
    · rw [if_pos h5]; exact ih st cnt res
    rw [if_neg h5]
    set m := map_author_to_profile lookup st a with hm
    have hres : m.st.researchers = st.researchers := map_author_to_profile_researchers lookup st a
    have hslugnone : m.profile.slug = none := map_author_to_profile_slug lookup st a
    by_cases h6 : trimString m.profile.name ≠ ""
    · rw [if_pos h6]
      by_cases h7 : _generate_unique_slug (trimString m.profile.name) m.st.researchers res ≠ ""
      · rw [if_pos h7]
        obtain ⟨k, hk1, hk2, hfree⟩ := generate_unique_slug_spec
          (trimString m.profile.name) m.st.researchers res
        obtain ⟨hs0res, hs0col⟩ := slugTaken_false_parts hfree
        nth_rewrite 1 [hres] at hs0col
        obtain ⟨ihn, iha⟩ := ih m.st (cnt + 1)
          (_generate_unique_slug (trimString m.profile.name) m.st.researchers res :: res)
        simp only [List.filterMap_cons]
        constructor
        · rw [List.nodup_cons]
          refine ⟨fun hmem => (iha _ hmem).1 (List.mem_cons_self _ _), ihn⟩
        · intro s hs
          rcases List.mem_cons.mp hs with hseq | hsmem
          · subst hseq
            exact ⟨hs0res, hs0col⟩
          · refine ⟨fun hc => (iha s hsmem).1 (List.mem_cons_of_mem _ hc), ?_⟩
            rw [← hres]
            exact (iha s hsmem).2
      · rw [if_neg h7]
        obtain ⟨ihn, iha⟩ := ih m.st (cnt + 1) res
        simp only [List.filterMap_cons, hslugnone]
        exact ⟨ihn, fun s hs => ⟨(iha s hs).1, by rw [← hres]; exact (iha s hs).2⟩⟩
    · rw [if_neg h6]
      obtain ⟨ihn, iha⟩ := ih m.st (cnt + 1) res
      simp only [List.filterMap_cons, hslugnone]
      exact ⟨ihn, fun s hs => ⟨(iha s hs).1, by rw [← hres]; exact (iha s hs).2⟩⟩

/-- C6: the slug allocator probes the derived base slug and then the
suffixed candidates `base-1, base-2, ...` in order (`slugCand`), returning
the first candidate that is neither in the reserved set nor present in the
persisted collection; consequently the slugs of all documents allocated
within one in-flight batch are pairwise distinct, disjoint from the
reserved set, and absent from the store, and of two names normalizing to
the same base the second receives `base-1` (the "Jane Doe" /
"Jane  Doe!!" scenario).  The derivation pipeline itself (lowercase, strip
non-word/non-space/non-hyphen characters, collapse whitespace runs to
single hyphens, collapse repeated hyphens, trim boundary hyphens) is the
embedded `_generate_slug` definition. -/
theorem c6_slug_allocation :
    (∀ (name : String) (researchers : List Profile) (reserved : List String),
      ∃ k, _generate_unique_slug name researchers reserved
          = slugCand (_generate_slug name) k ∧
        (∀ j, j < k →
          slugTaken researchers reserved (slugCand (_generate_slug name) j) = true) ∧
        slugTaken researchers reserved
          (_generate_unique_slug name researchers reserved) = false) ∧
    (∀ (cfg : Config) (lookup : String → Option String) (tdb sap : Nat)
        (authors : List RawAuthor) (st : Store) (cnt : Nat) (res : List String),
      ((processAuthors cfg lookup tdb sap authors st cnt res).new_docs.filterMap
          Profile.slug).Nodup ∧
        ∀ s ∈ (processAuthors cfg lookup tdb sap authors st cnt res).new_docs.filterMap
            Profile.slug, s ∉ res ∧ slugExistsIn st.researchers s = false) ∧
    (_generate_unique_slug "Jane Doe" [] [] = "jane-doe" ∧
      _generate_unique_slug "Jane  Doe!!" [] ["jane-doe"] = "jane-doe-1") :=
  ⟨generate_unique_slug_spec,
   fun cfg lookup tdb sap authors st cnt res =>
     processAuthors_slug_distinct cfg lookup tdb sap authors st cnt res,
   by decide, by decide⟩

/-- Witness for C6 at a concrete input. -/
theorem c6_slug_allocation_witness :
    _generate_unique_slug "Jane Doe" [] [] = "jane-doe" ∧
    slugTaken [] [] (_generate_unique_slug "Jane Doe" [] []) = false :=
  ⟨c6_slug_allocation.2.2.1, by
    obtain ⟨k, h1, h2, h3⟩ := c6_slug_allocation.1 "Jane Doe" [] []
    exact h3⟩

/-! ### Append-only growth of the reference collections

Every pipeline operation only ever appends to the countries and
institutions collections, so a `find_one` (first match) that succeeds keeps
returning the same document for the rest of the record's processing. -/

theorem find?_append_some {α : Type _} {p : α → Bool} {l₁ : List α} {x : α} (l₂ : List α)
    (h : l₁.find? p = some x) : (l₁ ++ l₂).find? p = some x := by
  rw [List.find?_append, h]
  rfl

/-- `st'` extends `st` on the countries and institutions collections. -/
def refSuffix (st st' : Store) : Prop :=
  (∃ e, st'.countries = st.countries ++ e) ∧ (∃ e, st'.institutions = st.institutions ++ e)

theorem refSuffix_refl (st : Store) : refSuffix st st :=
  ⟨⟨[], by simp⟩, ⟨[], by simp⟩⟩

theorem refSuffix_trans {s1 s2 s3 : Store} (h12 : refSuffix s1 s2) (h23 : refSuffix s2 s3) :
    refSuffix s1 s3 := by
  obtain ⟨⟨e1, he1⟩, ⟨f1, hf1⟩⟩ := h12
  obtain ⟨⟨e2, he2⟩, ⟨f2, hf2⟩⟩ := h23
  exact ⟨⟨e1 ++ e2, by rw [he2, he1, List.append_assoc]⟩,
         ⟨f1 ++ f2, by rw [hf2, hf1, List.append_assoc]⟩⟩

theorem upsert_country_refSuffix (lookup : String → Option String) (st : Store) (c : String) :
    refSuffix st (upsert_country lookup st c).2 := by
  simp only [upsert_country]
  split
  · exact refSuffix_refl st
  · split
    · exact refSuffix_refl st
    · exact ⟨⟨_, rfl⟩, ⟨[], by simp⟩⟩

theorem upsert_field_refSuffix (st : Store) (n : String) :
    refSuffix st (upsert_field st n).2 := by
  simp only [upsert_field]
  split
  · exact refSuffix_refl st
  · exact ⟨⟨[], by simp⟩, ⟨[], by simp⟩⟩

theorem prtStep_refSuffix (snapshot : List TopicDoc) (acc : PRTAcc) (t : RawTopic) :
    refSuffix acc.st (prtStep snapshot acc t).st := by
  have h := upsert_field_refSuffix acc.st ((t.field.map (fun f => f.display_name)).getD "")
  simp only [prtStep]
  split <;> simpa using h

theorem insertTopicDocs_refSuffix :
    ∀ (docs : List (String × Nat)) (st : Store), refSuffix st (insertTopicDocs st docs).2 := by
  intro docs
  induction docs with
  | nil => intro st; exact refSuffix_refl st
  | cons d rest ih =>
    intro st
    obtain ⟨name, fid⟩ := d
    simp only [insertTopicDocs]
    refine refSuffix_trans ?_ (ih _)
    exact ⟨⟨[], by simp⟩, ⟨[], by simp⟩⟩

theorem foldl_refSuffix {α β : Type _} (f : β → α → β) (g : β → Store)
    (h : ∀ b a, refSuffix (g b) (g (f b a))) :
    ∀ (l : List α) (b : β), refSuffix (g b) (g (l.foldl f b)) := by
  intro l
  induction l with
  | nil => intro b; exact refSuffix_refl _
  | cons a t ih => intro b; exact refSuffix_trans (h b a) (ih (f b a))

theorem process_researcher_topics_refSuffix (st : Store) (ts : List RawTopic) :
    refSuffix st (process_researcher_topics st ts).st := by
  simp only [process_researcher_topics]
  exact refSuffix_trans
    (foldl_refSuffix _ (fun a => a.st) (fun b a => prtStep_refSuffix _ b a) ts
      { st := st, final_topic_ids := [], missing_docs := [], search_tags := [],
        added_fields := [], counts := [], trace := [] })
    (insertTopicDocs_refSuffix _ _)

theorem exists_append_of_extended {α : Type _} {l m : List α} (e : List α) (h : m = l ++ e)
    (x : List α) : ∃ g, m ++ x = l ++ g :=
  ⟨e ++ x, by rw [h, List.append_assoc]⟩

theorem affStep_refSuffix (lookup : String → Option String) (acc : AffState)
    (aff : RawAffiliation) : refSuffix acc.st (affStep lookup acc aff).st := by
  have h := upsert_country_refSuffix lookup acc.st aff.institution.country_code
  obtain ⟨⟨e, he⟩, ⟨f, hf⟩⟩ := h
  simp only [affStep]
  repeat' split
  all_goals
    first
      | exact refSuffix_refl _
      | exact ⟨⟨e, by simpa using he⟩, by simpa using exists_append_of_extended f hf _⟩

theorem lkStep_refSuffix (lookup : String → Option String) (acc : LKState)
    (inst : RawInstitution) : refSuffix acc.st (lkStep lookup acc inst).st := by
  have h := upsert_country_refSuffix lookup acc.st inst.country_code
  obtain ⟨⟨e, he⟩, ⟨f, hf⟩⟩ := h
  simp only [lkStep]
  repeat' split
  all_goals
    first
      | exact refSuffix_refl _
      | exact ⟨⟨e, by simpa using he⟩, by simpa using exists_append_of_extended f hf _⟩

theorem findCountryById_mono {st st' : Store} (h : refSuffix st st') {c : String}
    {x : CountryDoc} (hf : findCountryById st c = some x) :
    findCountryById st' c = some x := by
  obtain ⟨⟨e, he⟩, _⟩ := h
  simp only [findCountryById] at hf ⊢
  rw [he]
  exact find?_append_some e hf

theorem findInstitutionByRor_mono {st st' : Store} (h : refSuffix st st') {r : String}
    {x : InstitutionDoc} (hf : findInstitutionByRor st r = some x) :
    findInstitutionByRor st' r = some x := by
  obtain ⟨_, ⟨e, he⟩⟩ := h
  simp only [findInstitutionByRor] at hf ⊢
  rw [he]
  exact find?_append_some e hf

/-- When the affiliation's institution is keyed by a fresh ROR and its
country is new, the step creates the Country document (display name falling
back to the normalized code when the naming lookup fails), creates the
Institution referencing it, and appends the affiliation entry. -/
theorem affStep_creates (lookup : String → Option String) (acc : AffState)
    (aff : RawAffiliation)
    (hror : aff.institution.ror ≠ "")
    (hcache : alistLookup acc.ror_to_id aff.institution.ror = none)
    (hnoi : findInstitutionByRor acc.st aff.institution.ror = none)
    (hcode : aff.institution.country_code ≠ "")
    (hnoc : findCountryById acc.st (upperString aff.institution.country_code) = none)
    (hlk : lookup (upperString aff.institution.country_code) = none) :
    (affStep lookup acc aff).st.countries
        = acc.st.countries
          ++ [{ id := upperString aff.institution.country_code,
                display_name := upperString aff.institution.country_code }] ∧
    (affStep lookup acc aff).st.institutions
        = acc.st.institutions
          ++ [{ id := acc.st.nextId,
                display_name := aff.institution.display_name, ror := aff.institution.ror,
                country_id := some (upperString aff.institution.country_code) }] ∧
    (affStep lookup acc aff).affiliations
        = acc.affiliations ++ [{ institution := acc.st.nextId, years := aff.years }] := by
  simp [affStep, upsert_country, hror, hcache, hnoi, hcode, hnoc, hlk]

/-- C9: a failed country-name lookup is non-fatal.  Resolving an institution
whose country is not yet in the store, while the naming lookup fails,
still creates the Country (display name equal to its normalized code),
still creates the Institution referencing that country, and the record's
normalization proceeds, its profile referencing the new institution. -/
theorem c9_country_lookup_failure (lookup : String → Option String) (st : Store)
    (author : RawAuthor) (aff : RawAffiliation)
    (haffs : author.affiliations = [aff])
    (hror : aff.institution.ror ≠ "")
    (hcode : aff.institution.country_code ≠ "")
    (hlk : lookup (upperString aff.institution.country_code) = none)
    (hnoc : findCountryById st (upperString aff.institution.country_code) = none)
    (hnoi : findInstitutionByRor st aff.institution.ror = none) :
    findCountryById (map_author_to_profile lookup st author).st
        (upperString aff.institution.country_code)
      = some { id := upperString aff.institution.country_code,
               display_name := upperString aff.institution.country_code } ∧
    findInstitutionByRor (map_author_to_profile lookup st author).st aff.institution.ror
      = some { id := st.nextId, display_name := aff.institution.display_name,
               ror := aff.institution.ror,
               country_id := some (upperString aff.institution.country_code) } ∧
    (map_author_to_profile lookup st author).profile.affiliations
      = [{ institution := st.nextId, years := aff.years }] := by
  obtain ⟨hc, hi, ha⟩ := affStep_creates lookup
    { st := st, affiliations := [], search_tags := [], added_countries := [], ror_to_id := [] }
    aff hror (by simp [alistLookup]) hnoi hcode hnoc hlk
  have haffRes : author.affiliations.foldl (affStep lookup)
      { st := st, affiliations := [], search_tags := [], added_countries := [], ror_to_id := [] }
      = affStep lookup
        { st := st, affiliations := [], search_tags := [], added_countries := [],
          ror_to_id := [] } aff := by
    rw [haffs]
    rfl
  have hfc : findCountryById (affStep lookup
      { st := st, affiliations := [], search_tags := [], added_countries := [],
        ror_to_id := [] } aff).st (upperString aff.institution.country_code)
      = some { id := upperString aff.institution.country_code,
               display_name := upperString aff.institution.country_code } := by
    simp only [findCountryById] at hnoc ⊢
    rw [hc, List.find?_append, hnoc]
    simp
  have hfi : findInstitutionByRor (affStep lookup
      { st := st, affiliations := [], search_tags := [], added_countries := [],
        ror_to_id := [] } aff).st aff.institution.ror
      = some { id := st.nextId, display_name := aff.institution.display_name,
               ror := aff.institution.ror,
               country_id := some (upperString aff.institution.country_code) } := by
    simp only [findInstitutionByRor] at hnoi ⊢
    rw [hi, List.find?_append, hnoi]
    simp
  have hsuf : refSuffix (affStep lookup
      { st := st, affiliations := [], search_tags := [], added_countries := [],
        ror_to_id := [] } aff).st (map_author_to_profile lookup st author).st := by
    simp only [map_author_to_profile, haffRes]
    exact refSuffix_trans
      (foldl_refSuffix (lkStep lookup) (fun a => a.st)
        (fun b a => lkStep_refSuffix lookup b a) author.last_known_institutions _)
      (process_researcher_topics_refSuffix _ _)
  refine ⟨findCountryById_mono hsuf hfc, findInstitutionByRor_mono hsuf hfi, ?_⟩
  simp only [map_author_to_profile, haffRes]
  rw [ha]
  simp

/-- Witness for C9 at a concrete input. -/
theorem c9_country_lookup_failure_witness :
    findCountryById (map_author_to_profile noLookup emptyStore
        (mkAuthor "a" "o" [⟨⟨"r1", "Uni", "vn"⟩, []⟩] [])).st "VN"
      = some { id := "VN", display_name := "VN" } :=
  (c9_country_lookup_failure noLookup emptyStore
    (mkAuthor "a" "o" [⟨⟨"r1", "Uni", "vn"⟩, []⟩] []) ⟨⟨"r1", "Uni", "vn"⟩, []⟩
    rfl (by decide) (by decide) rfl rfl rfl).1

/-- C10: an affiliation or last-known-institution entry whose institution
carries neither a ROR nor a display name is silently skipped: the mapping
of the author is literally identical (same profile: no affiliation entry,
no search tag; same store: no Institution or Country created; and no
failure — the mapper is total) to the mapping of the author without that
entry. -/
theorem c10_keyless_institution_skipped (lookup : String → Option String) (st : Store)
    (author : RawAuthor) (bad : RawInstitution) (years : List Int)
    (pre post : List RawAffiliation) (lpre lpost : List RawInstitution)
    (hr : bad.ror = "") (hd : bad.display_name = "") :
    map_author_to_profile lookup st
        { author with affiliations := pre ++ { institution := bad, years := years } :: post }
      = map_author_to_profile lookup st { author with affiliations := pre ++ post } ∧
    map_author_to_profile lookup st
        { author with last_known_institutions := lpre ++ bad :: lpost }
      = map_author_to_profile lookup st
          { author with last_known_institutions := lpre ++ lpost } := by
  have hskipA : ∀ acc : AffState,
      affStep lookup acc { institution := bad, years := years } = acc := by
    intro acc
    simp [affStep, hr, hd]
  have hskipL : ∀ acc : LKState, lkStep lookup acc bad = acc := by
    intro acc
    simp [lkStep, hr, hd]
  constructor
  · simp only [map_author_to_profile]
    rw [List.foldl_append, List.foldl_append, List.foldl_cons, hskipA, ← List.foldl_append]
  · simp only [map_author_to_profile]
    rw [List.foldl_append, List.foldl_append, List.foldl_cons, hskipL, ← List.foldl_append]

/-- Witness for C10 at a concrete input. -/
theorem c10_keyless_institution_skipped_witness :
    map_author_to_profile noLookup emptyStore
        (mkAuthor "a" "o" [⟨⟨"", "", "vn"⟩, [2020]⟩] [])
      = map_author_to_profile noLookup emptyStore (mkAuthor "a" "o" [] []) := by
  have h := (c10_keyless_institution_skipped noLookup emptyStore (mkAuthor "a" "o" [] [])
    ⟨"", "", "vn"⟩ [2020] [] [] [] [] rfl rfl).1
  simpa [mkAuthor] using h

/-- C8: a transport/upstream error on a page fetch (`api ... = none`, the
`except` path around `requests.get`) ends the partition's walk immediately:
the loop iteration returns with the store — hence every checkpoint, and in
particular the cursor — exactly as it was, and no event beyond the failed
fetch; the surrounding run (`runTopics`, the `main()` loop) continues with
the next partition on the unchanged store; and any retried walk of the
topic issues its first fetch at the cursor held in the topic's
`sync_status`, i.e. the last committed checkpoint. -/
theorem c8_fetch_error_terminal (cfg : Config) (lookup : String → Option String)
    (api : String → String → Option Page) (fuel : Nat) (t : TopicRef) (rest : List TopicRef)
    (st : Store) (sess : Nat) (td : TopicDoc)
    (hfind : findTopicByName st t.display_name = some td)
    (hsess : sess < cfg.SESSION_LIMIT)
    (hdb : st.researchers.length + sess < cfg.MAX_AUTHORS)
    (hcnt : td.sync_status.researchers_count < cfg.MAX_PER_TOPIC)
    (herr : api t.oa_id td.sync_status.cursor = none) :
    (∀ (dn oa : String) (tdb : Nat) (wst : Store) (ws cnt : Nat) (res : List String)
        (c : String), ws < cfg.SESSION_LIMIT → tdb + ws < cfg.MAX_AUTHORS →
        cnt < cfg.MAX_PER_TOPIC → api oa c = none →
        fetchLoop cfg lookup api (fuel + 1) dn oa tdb wst ws cnt res c
          = { st := wst, session := ws,
              trace := [Event.fetchPage c, Event.fetchError] }) ∧
    fetch_authors_for_topic cfg lookup api (fuel + 1) t st sess
      = { st := st, session := sess,
          trace := [Event.fetchPage td.sync_status.cursor, Event.fetchError] } ∧
    runTopics cfg lookup api (fuel + 1) (t :: rest) st sess
      = { st := (runTopics cfg lookup api (fuel + 1) rest st sess).st,
          session := (runTopics cfg lookup api (fuel + 1) rest st sess).session,
          trace := [Event.fetchPage td.sync_status.cursor, Event.fetchError]
            ++ (runTopics cfg lookup api (fuel + 1) rest st sess).trace } ∧
    (∀ api2 : String → String → Option Page,
      (fetch_authors_for_topic cfg lookup api2 (fuel + 1) t st sess).trace.head?
        = some (Event.fetchPage td.sync_status.cursor)) := by
  have hloop : ∀ (dn oa : String) (tdb : Nat) (wst : Store) (ws cnt : Nat) (res : List String)
      (c : String), ws < cfg.SESSION_LIMIT → tdb + ws < cfg.MAX_AUTHORS →
      cnt < cfg.MAX_PER_TOPIC → api oa c = none →
      fetchLoop cfg lookup api (fuel + 1) dn oa tdb wst ws cnt res c
        = { st := wst, session := ws, trace := [Event.fetchPage c, Event.fetchError] } := by
    intro dn oa tdb wst ws cnt res c h1 h2 h3 h4
    simp only [fetchLoop]
    rw [if_neg (by omega), if_neg (by omega), if_neg (by omega), h4]
  have hwalk : fetch_authors_for_topic cfg lookup api (fuel + 1) t st sess
      = { st := st, session := sess,
          trace := [Event.fetchPage td.sync_status.cursor, Event.fetchError] } := by
    simp only [fetch_authors_for_topic, hfind]
    rw [if_neg (by omega), if_neg (by omega), if_neg (by omega)]
    exact hloop t.display_name t.oa_id st.researchers.length st sess
      td.sync_status.researchers_count [] td.sync_status.cursor hsess hdb hcnt herr
  refine ⟨hloop, hwalk, ?_, ?_⟩
  · simp only [runTopics, hwalk]
  · intro api2
    simp only [fetch_authors_for_topic, hfind]
    rw [if_neg (by omega), if_neg (by omega), if_neg (by omega)]
    simp only [fetchLoop]
    rw [if_neg (by omega), if_neg (by omega), if_neg (by omega)]
    cases hapi : api2 t.oa_id td.sync_status.cursor with
    | none => rfl
    | some page =>
      by_cases hemp : page.results.isEmpty
      · simp [hemp]
      · simp only [hemp, if_false]
        cases hnc : page.next_cursor with
        | none => rfl
        | some c =>
          dsimp only
          by_cases hce : c = ""
          · simp [hce]
          · simp [hce]

/-! ### Composition lemmas for the trace scans -/

theorem numAdmits_append (xs ys : List Event) :
    numAdmits (xs ++ ys) = numAdmits xs + numAdmits ys := by
  induction xs with
  | nil => simp [numAdmits]
  | cons e r ih => cases e <;> simp [numAdmits, ih] <;> omega

theorem numInserted_append (xs ys : List Event) :
    numInserted (xs ++ ys) = numInserted xs + numInserted ys := by
  induction xs with
  | nil => simp [numInserted]
  | cons e r ih => cases e <;> simp [numInserted, ih] <;> omega

theorem pendingAfter_append (xs ys : List Event) :
    ∀ p, pendingAfter p (xs ++ ys) = pendingAfter (pendingAfter p xs) ys := by
  induction xs with
  | nil => intro p; simp [pendingAfter]
  | cons e r ih => intro p; cases e <;> simp [pendingAfter, ih]

theorem checkpointsAfterInsert_append (xs ys : List Event) :
    ∀ p, checkpointsAfterInsert p (xs ++ ys)
      = (checkpointsAfterInsert p xs && checkpointsAfterInsert (pendingAfter p xs) ys) := by
  induction xs with
  | nil => intro p; simp [checkpointsAfterInsert, pendingAfter]
  | cons e r ih =>
    intro p
    cases e <;> simp [checkpointsAfterInsert, pendingAfter, ih, Bool.and_assoc]

theorem flagAfter_append (xs ys : List Event) :
    ∀ b, flagAfter b (xs ++ ys) = flagAfter (flagAfter b xs) ys := by
  induction xs with
  | nil => intro b; simp [flagAfter]
  | cons e r ih => intro b; cases e <;> simp [flagAfter, ih]

theorem fetchNeedsCheckpoint_append (xs ys : List Event) :
    ∀ b, fetchNeedsCheckpoint b (xs ++ ys)
      = (fetchNeedsCheckpoint b xs && fetchNeedsCheckpoint (flagAfter b xs) ys) := by
  induction xs with
  | nil => intro b; simp [fetchNeedsCheckpoint, flagAfter]
  | cons e r ih =>
    intro b
    cases e <;> simp [fetchNeedsCheckpoint, flagAfter, ih, Bool.and_assoc]

theorem lastInsertState_append (xs ys : List Event) :
    ∀ s, lastInsertState s (xs ++ ys) = lastInsertState (lastInsertState s xs) ys := by
  induction xs with
  | nil => intro s; simp [lastInsertState]
  | cons e r ih => intro s; cases e <;> simp [lastInsertState, ih]

theorem sessionIncOk_append (xs ys : List Event) :
    ∀ s, sessionIncOk s (xs ++ ys)
      = (sessionIncOk s xs && sessionIncOk (lastInsertState s xs) ys) := by
  induction xs with
  | nil => intro s; simp [sessionIncOk, lastInsertState]
  | cons e r ih =>
    intro s
    cases e <;> simp [sessionIncOk, lastInsertState, ih, Bool.and_assoc]

/-- Facts about a page-body trace (only topic count writes and admissions):
it is transparent to every scan except the pending-admissions counter,
which it raises by `numAdmits`. -/
theorem pageBody_scan_facts :
    ∀ xs, pageBody xs = true →
      (∀ p, checkpointsAfterInsert p xs = true) ∧
      (∀ p, pendingAfter p xs = p + numAdmits xs) ∧
      (∀ b, fetchNeedsCheckpoint b xs = true) ∧
      (∀ b, flagAfter b xs = b) ∧
      sessionIncOk none xs = true ∧
      lastInsertState none xs = none ∧
      numInserted xs = 0 := by
  intro xs
  induction xs with
  | nil =>
    intro _
    exact ⟨fun p => rfl, fun p => by simp [pendingAfter, numAdmits], fun b => rfl,
      fun b => rfl, rfl, rfl, rfl⟩
  | cons e r ih =>
    intro h
    simp only [pageBody, List.all_cons, Bool.and_eq_true] at h
    obtain ⟨he, hr⟩ := h
    obtain ⟨i1, i2, i3, i4, i5, i6, i7⟩ := ih hr
    cases e with
    | partitionInc n =>
      refine ⟨fun p => by simp [checkpointsAfterInsert, i1],
        fun p => by simp [pendingAfter, numAdmits, i2]; omega,
        fun b => by simp [fetchNeedsCheckpoint, i3],
        fun b => by simp [flagAfter, i4],
        by simp [sessionIncOk, i5],
        by simp [lastInsertState, i6],
        by simp [numInserted, i7]⟩
    | topicCountWrite tid c =>
      refine ⟨fun p => by simp [checkpointsAfterInsert, i1],
        fun p => by simp [pendingAfter, numAdmits, i2],
        fun b => by simp [fetchNeedsCheckpoint, i3],
        fun b => by simp [flagAfter, i4],
        by simp [sessionIncOk, i5],
        by simp [lastInsertState, i6],
        by simp [numInserted, i7]⟩
    | fetchPage c => simp at he
    | fetchError => simp at he
    | insertBatch n => simp at he
    | sessionInc n => simp at he
    | checkpoint c n => simp at he

theorem onlyTopicWrites_pageBody {xs : List Event} (h : onlyTopicWrites xs = true) :
    pageBody xs = true := by
  simp only [onlyTopicWrites, List.all_eq_true] at h
  simp only [pageBody, List.all_eq_true]
  intro e he
  have := h e he
  cases e <;> simp_all

theorem onlyTopicWrites_numAdmits {xs : List Event} (h : onlyTopicWrites xs = true) :
    numAdmits xs = 0 := by
  induction xs with
  | nil => rfl
  | cons e r ih =>
    simp only [onlyTopicWrites, List.all_cons, Bool.and_eq_true] at h
    have hr := ih (by simpa [onlyTopicWrites] using h.2)
    cases e <;> simp_all [numAdmits]

theorem pageBody_append (xs ys : List Event) :
    pageBody (xs ++ ys) = (pageBody xs && pageBody ys) := by
  simp [pageBody, List.all_append]

theorem prtStep_trace (snapshot : List TopicDoc) (acc : PRTAcc) (t : RawTopic)
    (h : onlyTopicWrites acc.trace = true) :
    onlyTopicWrites (prtStep snapshot acc t).trace = true := by
  simp only [prtStep]
  split <;> simp_all [onlyTopicWrites, List.all_append]

theorem foldl_prt_trace (snapshot : List TopicDoc) :
    ∀ (ts : List RawTopic) (acc : PRTAcc), onlyTopicWrites acc.trace = true →
      onlyTopicWrites ((ts.foldl (prtStep snapshot) acc)).trace = true := by
  intro ts
  induction ts with
  | nil => intro acc h; exact h
  | cons t r ih => intro acc h; exact ih _ (prtStep_trace snapshot acc t h)

theorem process_researcher_topics_trace (st : Store) (ts : List RawTopic) :
    onlyTopicWrites (process_researcher_topics st ts).trace = true := by
  simp only [process_researcher_topics]
  exact foldl_prt_trace _ ts _ rfl

theorem map_author_to_profile_trace (lookup : String → Option String) (st : Store)
    (author : RawAuthor) :
    onlyTopicWrites (map_author_to_profile lookup st author).trace = true := by
  simp only [map_author_to_profile]
  exact process_researcher_topics_trace _ _

/-- The trace of the per-record loop is a page body (topic count writes and
admissions only), and its number of admissions equals the number of
documents accumulated for the batch. -/
theorem processAuthors_trace (cfg : Config) (lookup : String → Option String)
    (tdb sap : Nat) :
    ∀ (authors : List RawAuthor) (st : Store) (cnt : Nat) (res : List String),
      pageBody (processAuthors cfg lookup tdb sap authors st cnt res).trace = true ∧
      numAdmits (processAuthors cfg lookup tdb sap authors st cnt res).trace
        = (processAuthors cfg lookup tdb sap authors st cnt res).new_docs.length := by
  intro authors
  induction authors with
  | nil => intro st cnt res; exact ⟨rfl, rfl⟩
  | cons a rest ih =>
    intro st cnt res
    simp only [processAuthors]
    by_cases h1 : sap ≥ cfg.SESSION_LIMIT
    · rw [if_pos h1]; exact ⟨rfl, rfl⟩
    rw [if_neg h1]
    by_cases h2 : tdb + sap ≥ cfg.MAX_AUTHORS
    · rw [if_pos h2]; exact ⟨rfl, rfl⟩
    rw [if_neg h2]
    by_cases h3 : cnt ≥ cfg.MAX_PER_TOPIC
    · rw [if_pos h3]; exact ⟨rfl, rfl⟩
    rw [if_neg h3]
    by_cases h4 : a.orcid = ""
    · rw [if_pos h4]; exact ih st cnt res
    rw [if_neg h4]
    by_cases h5 : (findResearcherByOrcid st a.orcid).isSome
    · rw [if_pos h5]; exact ih st cnt res
    rw [if_neg h5]
    have hbody : pageBody (map_author_to_profile lookup st a).trace = true :=
      onlyTopicWrites_pageBody (map_author_to_profile_trace lookup st a)
    have hzero : numAdmits (map_author_to_profile lookup st a).trace = 0 :=
      onlyTopicWrites_numAdmits (map_author_to_profile_trace lookup st a)
    split
    all_goals
      obtain ⟨ihp, ihn⟩ := ih (map_author_to_profile lookup st a).st (cnt + 1) _
      constructor
    all_goals
      first
        | (simp only [pageBody_append]
           rw [hbody, ihp]
           rfl)
        | (simp only [numAdmits_append, hzero, ihn, List.length_cons]
           simp [numAdmits]
           omega)

/-- The four trace invariants of the page loop: (1) a checkpoint is never
written while admitted records of the current page are not yet inserted;
(2) no page fetch happens while an inserted page is not yet checkpointed;
(3) the session counter moves only immediately after a batch insert, by the
batch size; (4) the number of per-record admissions equals the number of
batch-inserted documents. -/
theorem fetchLoop_trace_ok (cfg : Config) (lookup : String → Option String)
    (api : String → String → Option Page) :
    ∀ (fuel : Nat) (dn oa : String) (tdb : Nat) (st : Store) (sess cnt : Nat)
      (res : List String) (cur : String),
      checkpointsAfterInsert 0
          (fetchLoop cfg lookup api fuel dn oa tdb st sess cnt res cur).trace = true ∧
      fetchNeedsCheckpoint false
          (fetchLoop cfg lookup api fuel dn oa tdb st sess cnt res cur).trace = true ∧
      sessionIncOk none
          (fetchLoop cfg lookup api fuel dn oa tdb st sess cnt res cur).trace = true ∧
      numAdmits (fetchLoop cfg lookup api fuel dn oa tdb st sess cnt res cur).trace
        = numInserted (fetchLoop cfg lookup api fuel dn oa tdb st sess cnt res cur).trace := by
  intro fuel
  induction fuel with
  | zero => intro dn oa tdb st sess cnt res cur; exact ⟨rfl, rfl, rfl, rfl⟩
  | succ f ih =>
    intro dn oa tdb st sess cnt res cur
    simp only [fetchLoop]
    by_cases h1 : sess ≥ cfg.SESSION_LIMIT
    · rw [if_pos h1]; exact ⟨rfl, rfl, rfl, rfl⟩
    rw [if_neg h1]
    by_cases h2 : tdb + sess ≥ cfg.MAX_AUTHORS
    · rw [if_pos h2]; exact ⟨rfl, rfl, rfl, rfl⟩
    rw [if_neg h2]
    by_cases h3 : cnt ≥ cfg.MAX_PER_TOPIC
    · rw [if_pos h3]; exact ⟨rfl, rfl, rfl, rfl⟩
    rw [if_neg h3]
    cases hapi : api oa cur with
    | none => exact ⟨rfl, rfl, rfl, rfl⟩
    | some page =>
      dsimp only
      by_cases hemp : page.results.isEmpty
      · rw [if_pos hemp]; exact ⟨rfl, rfl, rfl, rfl⟩
      rw [if_neg hemp]
      obtain ⟨hbody, hnum⟩ := processAuthors_trace cfg lookup tdb sess page.results st cnt res
      obtain ⟨s1, s2, s3, s4, s5, s6, s7⟩ := pageBody_scan_facts _ hbody
      have i1 : ∀ (st' : Store) (sess' cnt' : Nat) (res' : List String) (c : String),
          checkpointsAfterInsert 0
            (fetchLoop cfg lookup api f dn oa tdb st' sess' cnt' res' c).trace = true :=
        fun st' sess' cnt' res' c => (ih dn oa tdb st' sess' cnt' res' c).1
      have i2 : ∀ (st' : Store) (sess' cnt' : Nat) (res' : List String) (c : String),
          fetchNeedsCheckpoint false
            (fetchLoop cfg lookup api f dn oa tdb st' sess' cnt' res' c).trace = true :=
        fun st' sess' cnt' res' c => (ih dn oa tdb st' sess' cnt' res' c).2.1
      have i3 : ∀ (st' : Store) (sess' cnt' : Nat) (res' : List String) (c : String),
          sessionIncOk none
            (fetchLoop cfg lookup api f dn oa tdb st' sess' cnt' res' c).trace = true :=
        fun st' sess' cnt' res' c => (ih dn oa tdb st' sess' cnt' res' c).2.2.1
      have i4 : ∀ (st' : Store) (sess' cnt' : Nat) (res' : List String) (c : String),
          numAdmits (fetchLoop cfg lookup api f dn oa tdb st' sess' cnt' res' c).trace
            = numInserted (fetchLoop cfg lookup api f dn oa tdb st' sess' cnt' res' c).trace :=
        fun st' sess' cnt' res' c => (ih dn oa tdb st' sess' cnt' res' c).2.2.2
      by_cases hdocs : (processAuthors cfg lookup tdb sess page.results st cnt res).new_docs.isEmpty
      · rw [if_pos hdocs]
        have hn0 : numAdmits (processAuthors cfg lookup tdb sess page.results st cnt res).trace
            = 0 := by
          rw [hnum, List.isEmpty_iff.mp hdocs]
          rfl
        cases hnc : page.next_cursor with
        | none =>
          refine ⟨?_, ?_, ?_, ?_⟩ <;>
            simp [checkpointsAfterInsert, checkpointsAfterInsert_append,
              fetchNeedsCheckpoint, fetchNeedsCheckpoint_append,
              sessionIncOk, sessionIncOk_append, lastInsertState,
              numAdmits, numInserted, numAdmits_append, numInserted_append,
              s1, s2, s3, s4, s5, s6, s7, hn0]
        | some c =>
          dsimp only
          by_cases hce : c = ""
          · subst hce
            refine ⟨?_, ?_, ?_, ?_⟩ <;>
              simp [checkpointsAfterInsert, checkpointsAfterInsert_append,
                fetchNeedsCheckpoint, fetchNeedsCheckpoint_append,
                sessionIncOk, sessionIncOk_append, lastInsertState,
                numAdmits, numInserted, numAdmits_append, numInserted_append,
                s1, s2, s3, s4, s5, s6, s7, hn0]
          · rw [if_neg hce]
            refine ⟨?_, ?_, ?_, ?_⟩ <;>
              simp [checkpointsAfterInsert, checkpointsAfterInsert_append, pendingAfter_append,
                pendingAfter, flagAfter, flagAfter_append,
                fetchNeedsCheckpoint, fetchNeedsCheckpoint_append,
                sessionIncOk, sessionIncOk_append, lastInsertState, lastInsertState_append,
                numAdmits, numInserted, numAdmits_append, numInserted_append,
                s1, s2, s3, s4, s5, s6, s7, hn0, i1, i2, i3, i4]
      · rw [if_neg hdocs]
        cases hnc : page.next_cursor with
        | none =>
          refine ⟨?_, ?_, ?_, ?_⟩ <;>
            simp [checkpointsAfterInsert, checkpointsAfterInsert_append, pendingAfter_append,
              pendingAfter, flagAfter, flagAfter_append,
              fetchNeedsCheckpoint, fetchNeedsCheckpoint_append,
              sessionIncOk, sessionIncOk_append, lastInsertState, lastInsertState_append,
              numAdmits, numInserted, numAdmits_append, numInserted_append,
              s1, s2, s3, s4, s5, s6, s7, hnum]
        | some c =>
          dsimp only
          by_cases hce : c = ""
          · subst hce
            refine ⟨?_, ?_, ?_, ?_⟩ <;>
              simp [checkpointsAfterInsert, checkpointsAfterInsert_append, pendingAfter_append,
                pendingAfter, flagAfter, flagAfter_append,
                fetchNeedsCheckpoint, fetchNeedsCheckpoint_append,
                sessionIncOk, sessionIncOk_append, lastInsertState, lastInsertState_append,
                numAdmits, numInserted, numAdmits_append, numInserted_append,
                s1, s2, s3, s4, s5, s6, s7, hnum]
          · rw [if_neg hce]
            refine ⟨?_, ?_, ?_, ?_⟩ <;>
              (simp [checkpointsAfterInsert, checkpointsAfterInsert_append, pendingAfter_append,
                 pendingAfter, flagAfter, flagAfter_append,
                 fetchNeedsCheckpoint, fetchNeedsCheckpoint_append,
                 sessionIncOk, sessionIncOk_append, lastInsertState, lastInsertState_append,
                 numAdmits, numInserted, numAdmits_append, numInserted_append,
                 s1, s2, s3, s4, s5, s6, s7, hnum, i1, i2, i3, i4]
               try omega)

/-- The trace invariants lift from the page loop to the whole partition
walk (whose guard branches produce an empty trace). -/
theorem fetch_authors_trace_ok (cfg : Config) (lookup : String → Option String)
    (api : String → String → Option Page) (fuel : Nat) (t : TopicRef) (st : Store)
    (sess : Nat) :
    checkpointsAfterInsert 0
        (fetch_authors_for_topic cfg lookup api fuel t st sess).trace = true ∧
    fetchNeedsCheckpoint false
        (fetch_authors_for_topic cfg lookup api fuel t st sess).trace = true ∧
    sessionIncOk none (fetch_authors_for_topic cfg lookup api fuel t st sess).trace = true ∧
    numAdmits (fetch_authors_for_topic cfg lookup api fuel t st sess).trace
      = numInserted (fetch_authors_for_topic cfg lookup api fuel t st sess).trace := by
  simp only [fetch_authors_for_topic]
  by_cases h1 : st.researchers.length ≥ cfg.MAX_AUTHORS
  · rw [if_pos h1]; exact ⟨rfl, rfl, rfl, rfl⟩
  rw [if_neg h1]
  by_cases h2 : sess ≥ cfg.SESSION_LIMIT
  · rw [if_pos h2]; exact ⟨rfl, rfl, rfl, rfl⟩
  rw [if_neg h2]
  cases hft : findTopicByName st t.display_name with
  | none =>
    dsimp only
    by_cases h3 : (SyncStatus.mk "*" 0).researchers_count ≥ cfg.MAX_PER_TOPIC
    · rw [if_pos h3]; exact ⟨rfl, rfl, rfl, rfl⟩
    · rw [if_neg h3]
      exact fetchLoop_trace_ok cfg lookup api fuel t.display_name t.oa_id
        st.researchers.length st sess _ [] _
  | some td =>
    dsimp only
    by_cases h3 : td.sync_status.researchers_count ≥ cfg.MAX_PER_TOPIC
    · rw [if_pos h3]; exact ⟨rfl, rfl, rfl, rfl⟩
    · rw [if_neg h3]
      exact fetchLoop_trace_ok cfg lookup api fuel t.display_name t.oa_id
        st.researchers.length st sess _ [] _

/-- C1 (amended): in every partition walk, the session counter moves only
at the moment a batch insert returns, and by exactly the batch size; every
per-record partition-counter increment corresponds one-to-one to a record
of a batch insert (no increment for a filtered record); but the in-memory
partition counter is incremented at normalization time (per record,
before the page's batch insert), not at commit time. -/
theorem c1_counter_increment_discipline (cfg : Config) (lookup : String → Option String)
    (api : String → String → Option Page) (fuel : Nat) (t : TopicRef) (st : Store)
    (sess : Nat) :
    sessionIncOk none (fetch_authors_for_topic cfg lookup api fuel t st sess).trace = true ∧
    numAdmits (fetch_authors_for_topic cfg lookup api fuel t st sess).trace
      = numInserted (fetch_authors_for_topic cfg lookup api fuel t st sess).trace :=
  ⟨(fetch_authors_trace_ok cfg lookup api fuel t st sess).2.2.1,
   (fetch_authors_trace_ok cfg lookup api fuel t st sess).2.2.2⟩

def c1cfg : Config := Config.mk 100 100 100

def c1st : Store :=
  Store.mk [] [TopicDoc.mk 0 "T" none (SyncStatus.mk "*" 0)] [] [] [] 1

def c1api : String → String → Option Page := fun _ c =>
  if c = "*" then some (Page.mk [mkAuthor "a" "o1" [] []] none) else none

/-- Counterexample to C1 as stated: in this run the partition admission
counter is incremented (a `partitionInc` event) strictly before the first
batch insert of the run, i.e. at normalization time rather than at the
moment the record is durably committed. -/
theorem c1_increment_at_normalization_counterexample :
    admitBeforeInsert
        (fetch_authors_for_topic c1cfg noLookup c1api 5 (TopicRef.mk "T" "X") c1st 0).trace
      = true ∧
    (fetch_authors_for_topic c1cfg noLookup c1api 5 (TopicRef.mk "T" "X") c1st 0).trace
      = [Event.fetchPage "*", Event.partitionInc 1, Event.insertBatch 1,
         Event.sessionInc 1] := by
  constructor
  · decide
  · decide

/-- C7 (amended): in every partition walk, a checkpoint write never happens
while admitted records of the current page are not yet batch-inserted, and
no further page is fetched while an inserted page is not yet checkpointed
(so every NON-final inserted page is checkpointed, after its insert); the
final page — the one whose response carries no continuation cursor — is
inserted but never checkpointed. -/
theorem c7_checkpoint_ordering (cfg : Config) (lookup : String → Option String)
    (api : String → String → Option Page) (fuel : Nat) (t : TopicRef) (st : Store)
    (sess : Nat) :
    checkpointsAfterInsert 0
        (fetch_authors_for_topic cfg lookup api fuel t st sess).trace = true ∧
    fetchNeedsCheckpoint false
        (fetch_authors_for_topic cfg lookup api fuel t st sess).trace = true :=
  ⟨(fetch_authors_trace_ok cfg lookup api fuel t st sess).1,
   (fetch_authors_trace_ok cfg lookup api fuel t st sess).2.1⟩

def c7cfg : Config := Config.mk 100 100 100

def c7st : Store :=
  Store.mk [] [TopicDoc.mk 0 "T" none (SyncStatus.mk "*" 0)] [] [] [] 1

def c7api : String → String → Option Page := fun _ c =>
  if c = "*" then some (Page.mk [mkAuthor "a" "o1" [] []] none) else none

/-- Counterexample to C7 as stated: this run successfully fetches and
batch-inserts a (final) page, yet writes no checkpoint at all — the claim
that EVERY inserted page's cursor and admitted-count are persisted,
including the final page, is false. -/
theorem c7_final_page_not_checkpointed_counterexample :
    hasInsertEvent
        (fetch_authors_for_topic c7cfg noLookup c7api 5 (TopicRef.mk "T" "X") c7st 0).trace
      = true ∧
    hasCheckpointEvent
        (fetch_authors_for_topic c7cfg noLookup c7api 5 (TopicRef.mk "T" "X") c7st 0).trace
      = false := by
  constructor
  · decide
  · decide

/-! ### Cap enforcement (C2) -/

theorem onlyTopicWrites_no_partitionInc {xs : List Event} (h : onlyTopicWrites xs = true)
    {k : Nat} : Event.partitionInc k ∉ xs := by
  intro hmem
  simp only [onlyTopicWrites, List.all_eq_true] at h
  have := h _ hmem
  simp at this

theorem processAuthors_docs_le (cfg : Config) (lookup : String → Option String)
    (tdb sap : Nat) :
    ∀ (authors : List RawAuthor) (st : Store) (cnt : Nat) (res : List String),
      (processAuthors cfg lookup tdb sap authors st cnt res).new_docs.length
        ≤ authors.length := by
  intro authors
  induction authors with
  | nil => intro st cnt res; exact Nat.le_refl 0
  | cons a rest ih =>
    intro st cnt res
    simp only [processAuthors]
    by_cases h1 : sap ≥ cfg.SESSION_LIMIT
    · rw [if_pos h1]; simp
    rw [if_neg h1]
    by_cases h2 : tdb + sap ≥ cfg.MAX_AUTHORS
    · rw [if_pos h2]; simp
    rw [if_neg h2]
    by_cases h3 : cnt ≥ cfg.MAX_PER_TOPIC
    · rw [if_pos h3]; simp
    rw [if_neg h3]
    by_cases h4 : a.orcid = ""
    · rw [if_pos h4]
      exact Nat.le_succ_of_le (ih st cnt res)
    rw [if_neg h4]
    by_cases h5 : (findResearcherByOrcid st a.orcid).isSome
    · rw [if_pos h5]
      exact Nat.le_succ_of_le (ih st cnt res)
    rw [if_neg h5]
    split
    all_goals
      simp only [List.length_cons]
      exact Nat.succ_le_succ (ih _ _ _)

/-- Inside the per-record loop the partition counter is re-checked before
every record, against a value that DOES advance per record, so no
`partitionInc` ever exceeds `MAX_PER_TOPIC`. -/
theorem processAuthors_partitionInc_le (cfg : Config) (lookup : String → Option String)
    (tdb sap : Nat) :
    ∀ (authors : List RawAuthor) (st : Store) (cnt : Nat) (res : List String) (k : Nat),
      Event.partitionInc k ∈ (processAuthors cfg lookup tdb sap authors st cnt res).trace →
        k ≤ cfg.MAX_PER_TOPIC := by
  intro authors
  induction authors with
  | nil => intro st cnt res k h; simp [processAuthors] at h
  | cons a rest ih =>
    intro st cnt res k h
    simp only [processAuthors] at h
    by_cases h1 : sap ≥ cfg.SESSION_LIMIT
    · rw [if_pos h1] at h; simp at h
    rw [if_neg h1] at h
    by_cases h2 : tdb + sap ≥ cfg.MAX_AUTHORS
    · rw [if_pos h2] at h; simp at h
    rw [if_neg h2] at h
    by_cases h3 : cnt ≥ cfg.MAX_PER_TOPIC
    · rw [if_pos h3] at h; simp at h
    rw [if_neg h3] at h
    by_cases h4 : a.orcid = ""
    · rw [if_pos h4] at h; exact ih st cnt res k h
    rw [if_neg h4] at h
    by_cases h5 : (findResearcherByOrcid st a.orcid).isSome
    · rw [if_pos h5] at h; exact ih st cnt res k h
    rw [if_neg h5] at h
    rw [List.append_assoc] at h
    rcases List.mem_append.mp h with hm | hm
    · exact absurd hm
        (onlyTopicWrites_no_partitionInc (map_author_to_profile_trace lookup st a))
    rcases List.mem_cons.mp hm with he | hm'
    · have : k = cnt + 1 := by
        injection he
      omega
    · exact ih _ _ _ k hm'

theorem fetchLoop_partitionInc_le (cfg : Config) (lookup : String → Option String)
    (api : String → String → Option Page) :
    ∀ (fuel : Nat) (dn oa : String) (tdb : Nat) (st : Store) (sess cnt : Nat)
      (res : List String) (cur : String) (k : Nat),
      Event.partitionInc k ∈ (fetchLoop cfg lookup api fuel dn oa tdb st sess cnt res cur).trace
        → k ≤ cfg.MAX_PER_TOPIC := by
  intro fuel
  induction fuel with
  | zero => intro dn oa tdb st sess cnt res cur k h; simp [fetchLoop] at h
  | succ f ih =>
    intro dn oa tdb st sess cnt res cur k h
    simp only [fetchLoop] at h
    by_cases h1 : sess ≥ cfg.SESSION_LIMIT
    · rw [if_pos h1] at h; simp at h
    rw [if_neg h1] at h
    by_cases h2 : tdb + sess ≥ cfg.MAX_AUTHORS
    · rw [if_pos h2] at h; simp at h
    rw [if_neg h2] at h
    by_cases h3 : cnt ≥ cfg.MAX_PER_TOPIC
    · rw [if_pos h3] at h; simp at h
    rw [if_neg h3] at h
    cases hapi : api oa cur with
    | none =>
      rw [hapi] at h
      simp at h
    | some page =>
      rw [hapi] at h
      dsimp only at h
      by_cases hemp : page.results.isEmpty
      · rw [if_pos hemp] at h; simp at h
      rw [if_neg hemp] at h
      have hbatch := processAuthors_partitionInc_le cfg lookup tdb sess page.results st cnt res k
      by_cases hdocs :
          (processAuthors cfg lookup tdb sess page.results st cnt res).new_docs.isEmpty
      all_goals
        first
          | rw [if_pos hdocs] at h
          | rw [if_neg hdocs] at h
      all_goals
        cases hnc : page.next_cursor with
        | none =>
          rw [hnc] at h
          dsimp only at h
          simp at h
          first
            | exact hbatch h
            | (rcases h with hm | hm
               · exact hbatch hm
               · exact ih dn oa tdb _ _ _ _ _ k hm)
        | some c =>
          rw [hnc] at h
          dsimp only at h
          by_cases hce : c = ""
          · rw [if_pos hce] at h
            simp at h
            first
              | exact hbatch h
              | (rcases h with hm | hm
                 · exact hbatch hm
                 · exact ih dn oa tdb _ _ _ _ _ k hm)
          · rw [if_neg hce] at h
            simp at h
            first
              | exact hbatch h
              | (rcases h with hm | hm
                 · exact hbatch hm
                 · exact ih dn oa tdb _ _ _ _ _ k hm)

theorem fetchLoop_session_bound (cfg : Config) (lookup : String → Option String)
    (api : String → String → Option Page) (P : Nat)
    (hP : ∀ (oa c : String) (p : Page), api oa c = some p → p.results.length ≤ P) :
    ∀ (fuel : Nat) (dn oa : String) (tdb : Nat) (st : Store) (sess cnt : Nat)
      (res : List String) (cur : String),
      (fetchLoop cfg lookup api fuel dn oa tdb st sess cnt res cur).session
        ≤ max sess (cfg.SESSION_LIMIT - 1 + P) := by
  intro fuel
  induction fuel with
  | zero => intro dn oa tdb st sess cnt res cur; exact le_max_left _ _
  | succ f ih =>
    intro dn oa tdb st sess cnt res cur
    simp only [fetchLoop]
    by_cases h1 : sess ≥ cfg.SESSION_LIMIT
    · rw [if_pos h1]; exact le_max_left _ _
    rw [if_neg h1]
    by_cases h2 : tdb + sess ≥ cfg.MAX_AUTHORS
    · rw [if_pos h2]; exact le_max_left _ _
    rw [if_neg h2]
    by_cases h3 : cnt ≥ cfg.MAX_PER_TOPIC
    · rw [if_pos h3]; exact le_max_left _ _
    rw [if_neg h3]
    cases hapi : api oa cur with
    | none => exact le_max_left _ _
    | some page =>
      dsimp only
      have hlen := hP oa cur page hapi
      have hdle := processAuthors_docs_le cfg lookup tdb sess page.results st cnt res
      by_cases hemp : page.results.isEmpty
      · rw [if_pos hemp]; exact le_max_left _ _
      rw [if_neg hemp]
      by_cases hdocs :
          (processAuthors cfg lookup tdb sess page.results st cnt res).new_docs.isEmpty
      · rw [if_pos hdocs]
        cases page.next_cursor with
        | none => exact le_max_left _ _
        | some c =>
          dsimp only
          by_cases hce : c = ""
          · rw [if_pos hce]; exact le_max_left _ _
          · rw [if_neg hce]
            exact ih dn oa tdb _ _ _ _ c
      · rw [if_neg hdocs]
        have hsb : sess + (processAuthors cfg lookup tdb sess page.results st cnt
            res).new_docs.length ≤ cfg.SESSION_LIMIT - 1 + P := by omega
        cases page.next_cursor with
        | none =>
          dsimp only
          exact le_trans hsb (le_max_right _ _)
        | some c =>
          dsimp only
          by_cases hce : c = ""
          · rw [if_pos hce]
            exact le_trans hsb (le_max_right _ _)
          · rw [if_neg hce]
            refine le_trans (ih dn oa tdb _ _ _ _ c) ?_
            rw [max_eq_right hsb]
            exact le_max_right _ _

/-- C2 (amended): the per-record admission re-check is effective only for
the partition cap, whose counter advances per record — no admission ever
drives the partition counter beyond `MAX_PER_TOPIC`; for the session and
global caps the per-record check compares against a counter that only
advances per page, so a single page can overshoot `SESSION_LIMIT` (or
`MAX_AUTHORS`) by up to one page's worth of records: the session counter
never exceeds `SESSION_LIMIT - 1 + P` for page size bound `P`, and the
walk terminates normally (a total function, no error). -/
theorem c2_cap_enforcement (cfg : Config) (lookup : String → Option String)
    (api : String → String → Option Page) (fuel : Nat) (t : TopicRef) (st : Store)
    (sess P : Nat)
    (hP : ∀ (oa c : String) (p : Page), api oa c = some p → p.results.length ≤ P) :
    (∀ k, Event.partitionInc k ∈ (fetch_authors_for_topic cfg lookup api fuel t st sess).trace
      → k ≤ cfg.MAX_PER_TOPIC) ∧
    (fetch_authors_for_topic cfg lookup api fuel t st sess).session
      ≤ max sess (cfg.SESSION_LIMIT - 1 + P) := by
  simp only [fetch_authors_for_topic]
  by_cases h1 : st.researchers.length ≥ cfg.MAX_AUTHORS
  · rw [if_pos h1]
    exact ⟨fun k h => by simp at h, le_max_left _ _⟩
  rw [if_neg h1]
  by_cases h2 : sess ≥ cfg.SESSION_LIMIT
  · rw [if_pos h2]
    exact ⟨fun k h => by simp at h, le_max_left _ _⟩
  rw [if_neg h2]
  cases hft : findTopicByName st t.display_name with
  | none =>
    dsimp only
    by_cases h3 : (SyncStatus.mk "*" 0).researchers_count ≥ cfg.MAX_PER_TOPIC
    · rw [if_pos h3]; exact ⟨fun k h => by simp at h, le_max_left _ _⟩
    · rw [if_neg h3]
      exact ⟨fun k => fetchLoop_partitionInc_le cfg lookup api fuel _ _ _ _ _ _ _ _ k,
        fetchLoop_session_bound cfg lookup api P hP fuel _ _ _ _ _ _ _ _⟩
  | some td =>
    dsimp only
    by_cases h3 : td.sync_status.researchers_count ≥ cfg.MAX_PER_TOPIC
    · rw [if_pos h3]; exact ⟨fun k h => by simp at h, le_max_left _ _⟩
    · rw [if_neg h3]
      exact ⟨fun k => fetchLoop_partitionInc_le cfg lookup api fuel _ _ _ _ _ _ _ _ k,
        fetchLoop_session_bound cfg lookup api P hP fuel _ _ _ _ _ _ _ _⟩

def c2wcfg : Config := Config.mk 5 5 5

def c2wst : Store :=
  Store.mk [] [TopicDoc.mk 0 "T" none (SyncStatus.mk "*" 0)] [] [] [] 1

def c2wapi : String → String → Option Page := fun _ c =>
  if c = "*" then some (Page.mk [mkAuthor "a" "o1" [] []] none) else none

/-- Witness for C2 at a concrete input. -/
theorem c2_cap_enforcement_witness :
    (fetch_authors_for_topic c2wcfg noLookup c2wapi 5 (TopicRef.mk "T" "X") c2wst 0).session
      ≤ max 0 (c2wcfg.SESSION_LIMIT - 1 + 1) :=
  (c2_cap_enforcement c2wcfg noLookup c2wapi 5 (TopicRef.mk "T" "X") c2wst 0 1 (by
    intro oa c p h
    simp only [c2wapi] at h
    by_cases hc : c = "*"
    · rw [if_pos hc] at h
      cases h
      decide
    · rw [if_neg hc] at h
      cases h)).2

def c2xcfg : Config := Config.mk 100 1 100

def c2xst : Store :=
  Store.mk [] [TopicDoc.mk 0 "T" none (SyncStatus.mk "*" 0)] [] [] [] 1

def c2xapi : String → String → Option Page := fun _ c =>
  if c = "*" then some (Page.mk [mkAuthor "a" "o1" [] [], mkAuthor "b" "o2" [] []] none)
  else none

/-- Counterexample to C2 as stated: with `SESSION_LIMIT = 1` and a single
page of two admissible records, both records are admitted (the per-record
session check compares against the page-start counter, which never moves
within a page), so the number of admitted records, 2, exceeds the session
cap — "the number of records admitted never exceeds any cap" is false. -/
theorem c2_session_overshoot_counterexample :
    (fetch_authors_for_topic c2xcfg noLookup c2xapi 5 (TopicRef.mk "T" "X") c2xst 0).session
        = 2 ∧
    c2xcfg.SESSION_LIMIT = 1 ∧
    (fetch_authors_for_topic c2xcfg noLookup c2xapi 5 (TopicRef.mk "T" "X")
        c2xst 0).st.researchers.length = 2 := by
  refine ⟨?_, rfl, ?_⟩
  · decide
  · decide

/-! ### ORCID deduplication (C4) -/

theorem map_author_to_profile_identifiers (lookup : String → Option String) (st : Store)
    (author : RawAuthor) :
    (map_author_to_profile lookup st author).profile.identifiers
      = { openalex := author.id, orcid := author.orcid } := by
  simp [map_author_to_profile]

/-- C4 (amended): a record with an empty ORCID, or whose ORCID is already
present in the researchers collection at the time of its per-record check
(which includes every record committed by earlier pages of the run, since
the batch insert precedes the next fetch), is skipped before any work — the
store, counters and batch are exactly as if the record were absent; and
every document admitted into a page's batch has a nonempty ORCID that was
absent from the collection at the page's start.  (Two same-ORCID records
within one page, however, are both admitted: the in-flight batch is not
consulted.) -/
theorem c4_orcid_dedup (cfg : Config) (lookup : String → Option String) (tdb sap : Nat) :
    (∀ (a : RawAuthor) (rest : List RawAuthor) (st : Store) (cnt : Nat) (res : List String),
      sap < cfg.SESSION_LIMIT → tdb + sap < cfg.MAX_AUTHORS → cnt < cfg.MAX_PER_TOPIC →
      (a.orcid = "" ∨ (findResearcherByOrcid st a.orcid).isSome) →
      processAuthors cfg lookup tdb sap (a :: rest) st cnt res
        = processAuthors cfg lookup tdb sap rest st cnt res) ∧
    (∀ (authors : List RawAuthor) (st : Store) (cnt : Nat) (res : List String),
      ∀ d ∈ (processAuthors cfg lookup tdb sap authors st cnt res).new_docs,
        d.identifiers.orcid ≠ "" ∧ findResearcherByOrcid st d.identifiers.orcid = none) := by
  constructor
  · intro a rest st cnt res h1 h2 h3 hskip
    simp only [processAuthors]
    rw [if_neg (by omega), if_neg (by omega), if_neg (by omega)]
    rcases hskip with horc | hdup
    · rw [if_pos horc]
    · by_cases horc : a.orcid = ""
      · rw [if_pos horc]
      · rw [if_neg horc, if_pos hdup]
  · intro authors
    induction authors with
    | nil => intro st cnt res d hd; simp [processAuthors] at hd
    | cons a rest ih =>
      intro st cnt res d hd
      simp only [processAuthors] at hd
      by_cases h1 : sap ≥ cfg.SESSION_LIMIT
      · rw [if_pos h1] at hd; simp at hd
      rw [if_neg h1] at hd
      by_cases h2 : tdb + sap ≥ cfg.MAX_AUTHORS
      · rw [if_pos h2] at hd; simp at hd
      rw [if_neg h2] at hd
      by_cases h3 : cnt ≥ cfg.MAX_PER_TOPIC
      · rw [if_pos h3] at hd; simp at hd
      rw [if_neg h3] at hd
      by_cases h4 : a.orcid = ""
      · rw [if_pos h4] at hd; exact ih st cnt res d hd
      rw [if_neg h4] at hd
      by_cases h5 : (findResearcherByOrcid st a.orcid).isSome
      · rw [if_pos h5] at hd; exact ih st cnt res d hd
      rw [if_neg h5] at hd
      have hres : (map_author_to_profile lookup st a).st.researchers = st.researchers :=
        map_author_to_profile_researchers lookup st a
      have hne : findResearcherByOrcid st a.orcid = none :=
        Option.not_isSome_iff_eq_none.mp h5
      have hfr : ∀ o, findResearcherByOrcid (map_author_to_profile lookup st a).st o
          = findResearcherByOrcid st o := by
        intro o
        simp [findResearcherByOrcid, hres]
      simp only [List.mem_cons] at hd
      rcases hd with he | hm
      · subst he
        constructor
        · repeat' split
          all_goals
            simp only [map_author_to_profile_identifiers lookup st a]
            exact h4
        · repeat' split
          all_goals
            simp only [map_author_to_profile_identifiers lookup st a]
            exact hne
      · have := ih _ _ _ d hm
        rw [hfr] at this
        exact this

/-- Witness for C4 at a concrete input: an empty-ORCID record is skipped
outright. -/
theorem c4_orcid_dedup_witness :
    processAuthors (Config.mk 5 5 5) noLookup 0 0 [mkAuthor "a" "" [] []] emptyStore 0 []
      = processAuthors (Config.mk 5 5 5) noLookup 0 0 [] emptyStore 0 [] :=
  (c4_orcid_dedup (Config.mk 5 5 5) noLookup 0 0).1 (mkAuthor "a" "" [] []) [] emptyStore 0 []
    (by decide) (by decide) (by decide) (Or.inl rfl)

def c4xcfg : Config := Config.mk 100 100 100

def c4xst : Store :=
  Store.mk [] [TopicDoc.mk 0 "T" none (SyncStatus.mk "*" 0)] [] [] [] 1

def c4xapi : String → String → Option Page := fun _ c =>
  if c = "*" then some (Page.mk [mkAuthor "a" "dup" [] [], mkAuthor "b" "dup" [] []] none)
  else none

/-- Counterexample to C4 as stated: two records with the same ORCID inside
one page are both persisted — the store's ORCID existence check is
evaluated against the collection, which does not yet contain the page's
in-flight batch — so the admitted ORCID values are not pairwise
distinct. -/
theorem c4_same_page_duplicate_counterexample :
    ¬ ((fetch_authors_for_topic c4xcfg noLookup c4xapi 5 (TopicRef.mk "T" "X")
        c4xst 0).st.researchers.map (fun r => r.identifiers.orcid)).Nodup ∧
    ((fetch_authors_for_topic c4xcfg noLookup c4xapi 5 (TopicRef.mk "T" "X")
        c4xst 0).st.researchers.filter (fun r => r.identifiers.orcid == "dup")).length
      = 2 := by
  constructor
  · decide
  · decide

/-! ### Search-tag families (C5) -/

def isCountryTag (t : String) : Bool := "country:".data.isPrefixOf t.data

def isFieldTag (t : String) : Bool := "field:".data.isPrefixOf t.data

def isInstitutionTag (t : String) : Bool := "institution:".data.isPrefixOf t.data

theorem isPrefixOf_self_append : ∀ (l y : List Char), l.isPrefixOf (l ++ y) = true := by
  intro l y
  induction l with
  | nil => simp [List.isPrefixOf]
  | cons c cs ih => simp [List.isPrefixOf, ih]

theorem isCountryTag_country (x : String) : isCountryTag ("country:" ++ x) = true := by
  rw [isCountryTag, String.data_append]
  exact isPrefixOf_self_append _ _

theorem isCountryTag_institution (x : String) : isCountryTag ("institution:" ++ x) = false := by
  rw [isCountryTag, String.data_append]
  rfl

theorem isCountryTag_field (x : String) : isCountryTag ("field:" ++ x) = false := by
  rw [isCountryTag, String.data_append]
  rfl

theorem isCountryTag_topic (x : String) : isCountryTag ("topic:" ++ x) = false := by
  rw [isCountryTag, String.data_append]
  rfl

theorem isFieldTag_field (x : String) : isFieldTag ("field:" ++ x) = true := by
  rw [isFieldTag, String.data_append]
  exact isPrefixOf_self_append _ _

theorem isFieldTag_country (x : String) : isFieldTag ("country:" ++ x) = false := by
  rw [isFieldTag, String.data_append]
  rfl

theorem isFieldTag_institution (x : String) : isFieldTag ("institution:" ++ x) = false := by
  rw [isFieldTag, String.data_append]
  rfl

theorem isFieldTag_topic (x : String) : isFieldTag ("topic:" ++ x) = false := by
  rw [isFieldTag, String.data_append]
  rfl

theorem isInstitutionTag_institution (x : String) :
    isInstitutionTag ("institution:" ++ x) = true := by
  rw [isInstitutionTag, String.data_append]
  exact isPrefixOf_self_append _ _

theorem isInstitutionTag_country (x : String) : isInstitutionTag ("country:" ++ x) = false := by
  rw [isInstitutionTag, String.data_append]
  rfl

theorem isInstitutionTag_field (x : String) : isInstitutionTag ("field:" ++ x) = false := by
  rw [isInstitutionTag, String.data_append]
  rfl

theorem isInstitutionTag_topic (x : String) : isInstitutionTag ("topic:" ++ x) = false := by
  rw [isInstitutionTag, String.data_append]
  rfl

theorem string_append_left_cancel {p a b : String} (h : p ++ a = p ++ b) : a = b := by
  have hd := congrArg String.data h
  simp only [String.data_append] at hd
  exact String.ext (List.append_cancel_left hd)

/-- The invariant carried through the affiliations fold: country tags match
the `added_countries` dedup set (hence are duplicate-free), institution
tags count the kept affiliation entries, and no field tag appears. -/
def affTagInv (acc : AffState) : Prop :=
  acc.search_tags.filter isCountryTag
      = acc.added_countries.map (fun c => "country:" ++ c) ∧
  acc.added_countries.Nodup ∧
  (acc.search_tags.filter isInstitutionTag).length = acc.affiliations.length ∧
  acc.search_tags.filter isFieldTag = []

theorem affStep_tagInv (lookup : String → Option String) (acc : AffState)
    (aff : RawAffiliation) (h : affTagInv acc) : affTagInv (affStep lookup acc aff) := by
  obtain ⟨h1, h2, h3, h4⟩ := h
  simp only [affStep, affTagInv]
  repeat' split
  all_goals
    refine ⟨?_, ?_, ?_, ?_⟩
  all_goals
    simp_all [List.filter_append, isCountryTag_country, isCountryTag_institution,
      isFieldTag_country, isFieldTag_institution, isInstitutionTag_country,
      isInstitutionTag_institution, List.nodup_append]

theorem affFold_tagInv (lookup : String → Option String) :
    ∀ (affs : List RawAffiliation) (acc : AffState), affTagInv acc →
      affTagInv (affs.foldl (affStep lookup) acc) := by
  intro affs
  induction affs with
  | nil => intro acc h; exact h
  | cons a r ih => intro acc h; exact ih _ (affStep_tagInv lookup acc a h)

/-- The invariant carried through the topics fold: field tags match the
`added_fields` dedup set, and no country or institution tag appears. -/
def prtTagInv (acc : PRTAcc) : Prop :=
  acc.search_tags.filter isFieldTag
      = acc.added_fields.map (fun f => "field:" ++ natRepr f) ∧
  acc.added_fields.Nodup ∧
  acc.search_tags.filter isCountryTag = [] ∧
  acc.search_tags.filter isInstitutionTag = []

theorem prtStep_tagInv (snapshot : List TopicDoc) (acc : PRTAcc) (t : RawTopic)
    (h : prtTagInv acc) : prtTagInv (prtStep snapshot acc t) := by
  obtain ⟨h1, h2, h3, h4⟩ := h
  simp only [prtStep, prtTagInv]
  repeat' split
  all_goals
    refine ⟨?_, ?_, ?_, ?_⟩
  all_goals
    simp_all [List.filter_append, isFieldTag_field, isFieldTag_topic, isCountryTag_field,
      isCountryTag_topic, isInstitutionTag_field, isInstitutionTag_topic, List.nodup_append]

theorem filter_topicTags_country (ids : List Nat) :
    (ids.map (fun tid => "topic:" ++ natRepr tid)).filter isCountryTag = [] := by
  induction ids with
  | nil => rfl
  | cons i r ih => simp [isCountryTag_topic, ih]

theorem filter_topicTags_field (ids : List Nat) :
    (ids.map (fun tid => "topic:" ++ natRepr tid)).filter isFieldTag = [] := by
  induction ids with
  | nil => rfl
  | cons i r ih => simp [isFieldTag_topic, ih]

theorem filter_topicTags_institution (ids : List Nat) :
    (ids.map (fun tid => "topic:" ++ natRepr tid)).filter isInstitutionTag = [] := by
  induction ids with
  | nil => rfl
  | cons i r ih => simp [isInstitutionTag_topic, ih]

theorem prtFold_tagInv (snapshot : List TopicDoc) :
    ∀ (ts : List RawTopic) (acc : PRTAcc), prtTagInv acc →
      prtTagInv (ts.foldl (prtStep snapshot) acc) := by
  intro ts
  induction ts with
  | nil => intro acc h; exact h
  | cons t r ih => intro acc h; exact ih _ (prtStep_tagInv snapshot acc t h)

theorem fieldTag_injective : Function.Injective (fun f : Nat => "field:" ++ natRepr f) := by
  intro a b h
  exact natRepr_injective (string_append_left_cancel h)

theorem countryTag_injective : Function.Injective (fun c : String => "country:" ++ c) := by
  intro a b h
  exact string_append_left_cancel h

theorem process_researcher_topics_tags (st : Store) (ts : List RawTopic) :
    ((process_researcher_topics st ts).search_tags.filter isFieldTag).Nodup ∧
    (process_researcher_topics st ts).search_tags.filter isCountryTag = [] ∧
    (process_researcher_topics st ts).search_tags.filter isInstitutionTag = [] := by
  obtain ⟨h1, h2, h3, h4⟩ := prtFold_tagInv
    (st.topics.filter (fun t => (ts.map (fun t => t.display_name)).contains t.display_name))
    ts
    { st := st, final_topic_ids := [], missing_docs := [], search_tags := [],
      added_fields := [], counts := [], trace := [] }
    ⟨rfl, List.nodup_nil, rfl, rfl⟩
  simp only [process_researcher_topics]
  refine ⟨?_, ?_, ?_⟩
  · simp only [List.filter_append, filter_topicTags_field, List.append_nil, h1]
    exact h2.map fieldTag_injective
  · simp only [List.filter_append, filter_topicTags_country, h3, List.append_nil,
      List.nil_append]
  · simp only [List.filter_append, filter_topicTags_institution, h4, List.append_nil,
      List.nil_append]

/-- C5 (amended): within one normalized profile the `country:` tags are
deduplicated (via the `added_countries` set), the `field:` tags are
deduplicated (via the `added_fields` set), but an `institution:` tag is
appended once per kept affiliation entry — so the same institution
appearing in several affiliations yields duplicate tags, and `search_tags`
as a whole is NOT duplicate-free; `topic:` tags follow raw topic mentions
rather than distinct topics. -/
theorem c5_search_tag_families (lookup : String → Option String) (st : Store)
    (author : RawAuthor) :
    ((map_author_to_profile lookup st author).profile.search_tags.filter
        isCountryTag).Nodup ∧
    ((map_author_to_profile lookup st author).profile.search_tags.filter isFieldTag).Nodup ∧
    ((map_author_to_profile lookup st author).profile.search_tags.filter
        isInstitutionTag).length
      = (map_author_to_profile lookup st author).profile.affiliations.length := by
  obtain ⟨a1, a2, a3, a4⟩ := affFold_tagInv lookup author.affiliations
    { st := st, affiliations := [], search_tags := [], added_countries := [], ror_to_id := [] }
    ⟨rfl, List.nodup_nil, rfl, rfl⟩
  obtain ⟨p1, p2, p3⟩ := process_researcher_topics_tags
    (author.last_known_institutions.foldl (lkStep lookup)
      { st := (author.affiliations.foldl (affStep lookup)
          { st := st, affiliations := [], search_tags := [], added_countries := [],
            ror_to_id := [] }).st,
        last_known := [],
        ror_to_id := (author.affiliations.foldl (affStep lookup)
          { st := st, affiliations := [], search_tags := [], added_countries := [],
            ror_to_id := [] }).ror_to_id }).st
    author.topics
  simp only [map_author_to_profile]
  refine ⟨?_, ?_, ?_⟩
  · simp only [List.filter_append, a1, p2, List.append_nil]
    exact a2.map countryTag_injective
  · simp only [List.filter_append, a4, List.nil_append]
    exact p1
  · simp only [List.filter_append, p3, List.append_nil]
    exact a3

def c5aff : RawAffiliation := RawAffiliation.mk (RawInstitution.mk "ror1" "Uni" "vn") [2020]

def c5author : RawAuthor := mkAuthor "a" "o" [c5aff, c5aff] []

/-- Counterexample to C5 as stated: an author affiliated twice with the
same institution receives the tag `institution:0` twice — `search_tags` is
not a deduplicated union. -/
theorem c5_duplicate_institution_tag_counterexample :
    ¬ (map_author_to_profile noLookup emptyStore c5author).profile.search_tags.Nodup ∧
    (map_author_to_profile noLookup emptyStore c5author).profile.search_tags
      = ["institution:0", "country:VN", "institution:0"] := by
  constructor
  · decide
  · decide

/-! ### Topic researchers-count accounting (C3) -/

/-- The `researchers_count` of the first topic document with the given id. -/
def topicCountById (st : Store) (tid : Nat) : Option Nat :=
  (st.topics.find? (fun t => t.id == tid)).map (fun t => t.sync_status.researchers_count)

theorem upsert_field_topics (st : Store) (nm : String) :
    (upsert_field st nm).2.topics = st.topics := by
  simp only [upsert_field]
  split <;> rfl

theorem find?_updateFirst_self (tid : Nat) (sync : SyncStatus) :
    ∀ (l : List TopicDoc),
      (updateFirstTopicById l tid sync).find? (fun t => t.id == tid)
        = (l.find? (fun t => t.id == tid)).map
            (fun t => { t with sync_status := sync }) := by
  intro l
  induction l with
  | nil => rfl
  | cons t rest ih =>
    by_cases h : (t.id == tid) = true
    · simp only [updateFirstTopicById, if_pos h]
      simp [List.find?, h]
    · simp only [updateFirstTopicById, if_neg h]
      simp [List.find?, h, ih]

theorem find?_updateFirst_other {tid tid' : Nat} (hne : tid' ≠ tid) (sync : SyncStatus) :
    ∀ (l : List TopicDoc),
      (updateFirstTopicById l tid sync).find? (fun t => t.id == tid')
        = l.find? (fun t => t.id == tid') := by
  intro l
  induction l with
  | nil => rfl
  | cons t rest ih =>
    by_cases h : (t.id == tid) = true
    · have ht : t.id = tid := by simpa using h
      have hp : (t.id == tid') = false := by
        rw [beq_eq_false_iff_ne]
        omega
      simp only [updateFirstTopicById, if_pos h]
      simp [List.find?, hp]
    · simp only [updateFirstTopicById, if_neg h]
      cases hp : (t.id == tid') with
      | false => simp [List.find?, hp, ih]
      | true => simp [List.find?, hp]

theorem alistLookup_cons_self (k : String) (v : Nat) (l : List (String × Nat)) :
    alistLookup ((k, v) :: l) k = some v := by
  simp [alistLookup]

theorem alistLookup_cons_ne {k k' : String} (hne : k ≠ k') (v : Nat)
    (l : List (String × Nat)) : alistLookup ((k, v) :: l) k' = alistLookup l k' := by
  simp only [alistLookup, List.find?]
  have : (k == k') = false := beq_eq_false_iff_ne.mpr hne
  rw [this]

theorem lookupLastTopic_spec {docs : List TopicDoc} {n : String} {d : TopicDoc}
    (h : lookupLastTopic docs n = some d) : d ∈ docs ∧ d.display_name = n := by
  have h1 := List.mem_of_find?_eq_some h
  have h2 := List.find?_some h
  exact ⟨List.mem_reverse.mp h1, by simpa using h2⟩

/-- With unique display names in the store, the snapshot lookup for the
target topic's name returns exactly the target document. -/
theorem lookupLastTopic_unique (st : Store) (T : TopicDoc) (names : List String)
    (hT : T ∈ st.topics)
    (hnames : (st.topics.map (fun t => t.display_name)).Nodup)
    (hmem : T.display_name ∈ names) :
    lookupLastTopic (st.topics.filter (fun t => names.contains t.display_name))
        T.display_name = some T := by
  have hTf : T ∈ (st.topics.filter (fun t => names.contains t.display_name)).reverse := by
    rw [List.mem_reverse]
    exact List.mem_filter.mpr ⟨hT, contains_iff_mem.mpr hmem⟩
  have hsome : ((st.topics.filter (fun t => names.contains t.display_name)).reverse.find?
      (fun t => t.display_name == T.display_name)).isSome := by
    rw [List.find?_isSome]
    exact ⟨T, hTf, by simp⟩
  obtain ⟨x, hx⟩ := Option.isSome_iff_exists.mp hsome
  obtain ⟨hxmem, hxname⟩ := lookupLastTopic_spec hx
  have hxst : x ∈ st.topics := (List.mem_filter.mp hxmem).1
  have hxT : x = T :=
    List.inj_on_of_nodup_map hnames hxst hT hxname
  rw [lookupLastTopic, hx, hxT]

/-- Through the topics loop of one researcher, the stored
`researchers_count` of a topic grows by exactly one per raw mention of its
(unique) display name: the in-place mutation of the shared `sync` dict
makes a second mention see the already-incremented value. -/
theorem prtFold_count (st : Store) (T : TopicDoc) (names : List String)
    (hT : T ∈ st.topics)
    (hnames : (st.topics.map (fun t => t.display_name)).Nodup)
    (hids : (st.topics.map (fun t => t.id)).Nodup) :
    ∀ (ts : List RawTopic) (acc : PRTAcc) (m : Nat),
      (∀ t ∈ ts, t.display_name = T.display_name → T.display_name ∈ names) →
      topicCountById acc.st T.id = some (T.sync_status.researchers_count + m) →
      alistLookup acc.counts T.display_name
        = (if m = 0 then none else some (T.sync_status.researchers_count + m)) →
      topicCountById ((ts.foldl (prtStep (st.topics.filter
            (fun t => names.contains t.display_name))) acc)).st T.id
          = some (T.sync_status.researchers_count + m
              + (ts.map (fun t => t.display_name)).count T.display_name) := by
  intro ts
  induction ts with
  | nil =>
    intro acc m hall hcount hlk
    simpa using hcount
  | cons t rest ih =>
    intro acc m hall hcount hlk
    rw [List.foldl_cons]
    by_cases hn : t.display_name = T.display_name
    · have hmem : T.display_name ∈ names := hall t (List.mem_cons_self t rest) hn
      have hlook : lookupLastTopic (st.topics.filter
          (fun t => names.contains t.display_name)) t.display_name = some T := by
        rw [hn]
        exact lookupLastTopic_unique st T names hT hnames hmem
      obtain ⟨τ, hτfind, hτcount⟩ := Option.map_eq_some'.mp hcount
      have hcur : (alistLookup acc.counts t.display_name).getD
          T.sync_status.researchers_count = T.sync_status.researchers_count + m := by
        rw [hn, hlk]
        by_cases hm : m = 0
        · subst hm
          simp
        · simp [hm]
      have hcount' : topicCountById (prtStep (st.topics.filter
          (fun t => names.contains t.display_name)) acc t).st T.id
          = some (T.sync_status.researchers_count + (m + 1)) := by
        simp only [prtStep, hlook]
        simp only [topicCountById, find?_updateFirst_self, upsert_field_topics]
        rw [hτfind]
        simp only [Option.map_some']
        rw [hcur]
        exact congrArg some (Nat.add_assoc _ _ _)
      have hlk' : alistLookup (prtStep (st.topics.filter
          (fun t => names.contains t.display_name)) acc t).counts T.display_name
          = some (T.sync_status.researchers_count + (m + 1)) := by
        simp only [prtStep, hlook]
        rw [← hn, alistLookup_cons_self, hcur]
        exact congrArg some (Nat.add_assoc _ _ _)
      have hrec := ih (prtStep (st.topics.filter
          (fun t => names.contains t.display_name)) acc t) (m + 1)
        (fun x hx => hall x (List.mem_cons_of_mem _ hx)) hcount' (by rw [hlk']; simp)
      rw [hrec]
      have hcc : ((t :: rest).map (fun t => t.display_name)).count T.display_name
          = (rest.map (fun t => t.display_name)).count T.display_name + 1 := by
        simp [List.count_cons, hn]
      rw [hcc]
      congr 1
      omega
    · have hstep : topicCountById (prtStep (st.topics.filter
          (fun t => names.contains t.display_name)) acc t).st T.id
            = topicCountById acc.st T.id ∧
          alistLookup (prtStep (st.topics.filter
            (fun t => names.contains t.display_name)) acc t).counts T.display_name
            = alistLookup acc.counts T.display_name := by
        cases hlook : lookupLastTopic (st.topics.filter
            (fun t => names.contains t.display_name)) t.display_name with
        | none =>
          simp only [prtStep, hlook]
          refine ⟨?_, ?_⟩ <;> simp [topicCountById, upsert_field_topics]
        | some doc =>
          obtain ⟨hdmem, hdname⟩ := lookupLastTopic_spec hlook
          have hdst : doc ∈ st.topics := (List.mem_filter.mp hdmem).1
          have hdne : doc.id ≠ T.id := by
            intro he
            have : doc = T := List.inj_on_of_nodup_map hids hdst hT he
            rw [this] at hdname
            exact hn (by rw [← hdname])
          simp only [prtStep, hlook]
          constructor
          · simp only [topicCountById, upsert_field_topics,
              find?_updateFirst_other (fun he => hdne he.symm)]
          · exact alistLookup_cons_ne (fun he => hn he) _ _
      have hrec := ih (prtStep (st.topics.filter
          (fun t => names.contains t.display_name)) acc t) m
        (fun x hx => hall x (List.mem_cons_of_mem _ hx))
        (by rw [hstep.1]; exact hcount) (by rw [hstep.2]; exact hlk)
      rw [hrec]
      have hcc : ((t :: rest).map (fun t => t.display_name)).count T.display_name
          = (rest.map (fun t => t.display_name)).count T.display_name := by
        simp [List.count_cons, hn]
      rw [hcc]

/-- With pairwise-distinct topic ids, `find?` by a member's id returns that
member. -/
theorem find?_topicId_self {l : List TopicDoc} {T : TopicDoc}
    (hids : (l.map (fun t => t.id)).Nodup) (hT : T ∈ l) :
    l.find? (fun t => t.id == T.id) = some T := by
  induction l with
  | nil => cases hT
  | cons x rest ih =>
    rw [List.map_cons] at hids
    have hnodup := List.nodup_cons.mp hids
    rcases List.mem_cons.mp hT with he | hm
    · subst he
      simp [List.find?]
    · have hx : (x.id == T.id) = false := by
        rw [beq_eq_false_iff_ne]
        intro he
        exact hnodup.1 (by rw [he]; exact List.mem_map_of_mem _ hm)
      simp [List.find?, hx, ih hnodup.2 hm]

/-- The store after appending one freshly inserted topic doc, as built in
the recursive step of `insertTopicDocs`. -/
def storeWithTopicDoc (st : Store) (name : String) (fid : Nat) : Store :=
  { st with
    topics := st.topics ++
      [{ id := st.nextId, display_name := name, field_id := some fid,
         sync_status := { cursor := "*", researchers_count := 1 } }],
    nextId := st.nextId + 1 }

/-- The bulk insert of missing topic docs only appends to the topics
collection, so an existing topic's stored count is unchanged by it. -/
theorem insertTopicDocs_topicCount (tid : Nat) (c : Nat) :
    ∀ (docs : List (String × Nat)) (st : Store),
      topicCountById st tid = some c →
      topicCountById (insertTopicDocs st docs).2 tid = some c := by
  intro docs
  induction docs with
  | nil =>
    intro st h
    exact h
  | cons d rest ih =>
    intro st h
    obtain ⟨name, fid⟩ := d
    have hstep : topicCountById (storeWithTopicDoc st name fid) tid = some c := by
      simp only [topicCountById, storeWithTopicDoc] at h ⊢
      obtain ⟨τ, hf, hv⟩ := Option.map_eq_some'.mp h
      rw [find?_append_some _ hf, Option.map_some', hv]
    show topicCountById (insertTopicDocs (storeWithTopicDoc st name fid) rest).2 tid = some c
    exact ih _ hstep

/-- The store produced by `process_researcher_topics` is the bulk insert of
the loop accumulator's missing docs into the accumulator's store. -/
theorem process_researcher_topics_st_eq (st : Store) (ts : List RawTopic) :
    (process_researcher_topics st ts).st
      = (insertTopicDocs
          (ts.foldl (prtStep (st.topics.filter
              (fun t => (ts.map (fun t => t.display_name)).contains t.display_name)))
            { st := st, final_topic_ids := [], missing_docs := [], search_tags := [],
              added_fields := [], counts := [], trace := [] }).st
          (ts.foldl (prtStep (st.topics.filter
              (fun t => (ts.map (fun t => t.display_name)).contains t.display_name)))
            { st := st, final_topic_ids := [], missing_docs := [], search_tags := [],
              added_fields := [], counts := [], trace := [] }).missing_docs).2 := rfl

/-- C3 — amended per-mention accounting.  Processing one researcher's raw
topic list increments an existing topic's stored `researchers_count` once
per raw mention of its display name — not once per distinct researcher:
the in-place mutation of the shared `sync` dict makes every repeated
mention visible.  (The walker-level part of the original claim fails
separately: the per-page checkpoint overwrite can decrease the stored
count, see the counterexample.) -/
theorem c3_topic_count_per_mention (st : Store) (T : TopicDoc) (ts : List RawTopic)
    (hT : T ∈ st.topics)
    (hnames : (st.topics.map (fun t => t.display_name)).Nodup)
    (hids : (st.topics.map (fun t => t.id)).Nodup) :
    topicCountById (process_researcher_topics st ts).st T.id
      = some (T.sync_status.researchers_count
          + (ts.map (fun t => t.display_name)).count T.display_name) := by
  have h0 : topicCountById st T.id
      = some (T.sync_status.researchers_count + 0) := by
    rw [Nat.add_zero]
    simp only [topicCountById, find?_topicId_self hids hT, Option.map_some']
  have hfold := prtFold_count st T (ts.map (fun t => t.display_name)) hT hnames hids ts
    { st := st, final_topic_ids := [], missing_docs := [], search_tags := [],
      added_fields := [], counts := [], trace := [] } 0
    (fun t ht he => he ▸ List.mem_map_of_mem _ ht) h0 (by simp [alistLookup])
  have hres := insertTopicDocs_topicCount T.id _
    ((ts.foldl (prtStep (st.topics.filter
        (fun t => (ts.map (fun t => t.display_name)).contains t.display_name)))
      { st := st, final_topic_ids := [], missing_docs := [], search_tags := [],
        added_fields := [], counts := [], trace := [] }).missing_docs)
    _ hfold
  rw [process_researcher_topics_st_eq, hres]
  simp

/-- Witness for the C3 theorem at a concrete store: topic `T` stored with
count 5 and mentioned twice (out of three raw mentions) ends at 7. -/
theorem c3_topic_count_per_mention_witness :
    topicCountById (process_researcher_topics
        (Store.mk [] [TopicDoc.mk 0 "T" none (SyncStatus.mk "*" 5),
          TopicDoc.mk 1 "U" none (SyncStatus.mk "*" 2)] [] [] [] 2)
        [RawTopic.mk "T" (some (RawField.mk "F")), RawTopic.mk "T" none,
          RawTopic.mk "U" none]).st
      (TopicDoc.mk 0 "T" none (SyncStatus.mk "*" 5)).id
      = some ((TopicDoc.mk 0 "T" none (SyncStatus.mk "*" 5)).sync_status.researchers_count
          + (([RawTopic.mk "T" (some (RawField.mk "F")), RawTopic.mk "T" none,
              RawTopic.mk "U" none].map (fun t => t.display_name)).count
            (TopicDoc.mk 0 "T" none (SyncStatus.mk "*" 5)).display_name)) :=
  c3_topic_count_per_mention
    (Store.mk [] [TopicDoc.mk 0 "T" none (SyncStatus.mk "*" 5),
      TopicDoc.mk 1 "U" none (SyncStatus.mk "*" 2)] [] [] [] 2)
    (TopicDoc.mk 0 "T" none (SyncStatus.mk "*" 5))
    [RawTopic.mk "T" (some (RawField.mk "F")), RawTopic.mk "T" none,
      RawTopic.mk "U" none]
    (List.mem_cons_self _ _) (by decide) (by decide)

def c3xst : Store :=
  Store.mk [] [TopicDoc.mk 0 "T" none (SyncStatus.mk "*" 5)] [] [] [] 1

def c3xtopic : RawTopic := RawTopic.mk "T" (some (RawField.mk "F"))

def c3xapi : String → String → Option Page := fun _ cur =>
  if cur = "*" then some (Page.mk [mkAuthor "a" "o1" [] [c3xtopic, c3xtopic]] (some "c2"))
  else if cur = "c2" then some (Page.mk [mkAuthor "b" "o2" [] [c3xtopic, c3xtopic]] none)
  else none

/-- Counterexample to C3 as stated: walking a topic stored at count 5 over
two pages of one distinct researcher each (each mentioning the topic
twice), the sequence of stored-count writes is `[6, 7, 6, 7, 8]` — it
DECREASES at the page-1 checkpoint (which overwrites the count with the
walker's local admission counter), and the final stored count 8 reflects
one increment per raw mention plus the checkpoint overwrite, not one per
distinct researcher (only 2 were admitted). -/
theorem c3_count_decreases_counterexample :
    nondecreasing (countWritesTo 0 (fetch_authors_for_topic (Config.mk 10 10 10) noLookup
        c3xapi 3 (TopicRef.mk "T" "X") c3xst 0).trace) = false
    ∧ countWritesTo 0 (fetch_authors_for_topic (Config.mk 10 10 10) noLookup
        c3xapi 3 (TopicRef.mk "T" "X") c3xst 0).trace = [6, 7, 6, 7, 8]
    ∧ (findTopicByName (fetch_authors_for_topic (Config.mk 10 10 10) noLookup
        c3xapi 3 (TopicRef.mk "T" "X") c3xst 0).st "T").map
        (fun t => t.sync_status.researchers_count) = some 8
    ∧ numInserted (fetch_authors_for_topic (Config.mk 10 10 10) noLookup
        c3xapi 3 (TopicRef.mk "T" "X") c3xst 0).trace = 2 := by
  decide

/-- Witness for C8 at a concrete input. -/
theorem c8_fetch_error_terminal_witness :
    fetch_authors_for_topic (Config.mk 10 10 10) noLookup (fun _ _ => none) 3
        (TopicRef.mk "T" "X") (Store.mk [] [TopicDoc.mk 0 "T" none (SyncStatus.mk "*" 0)]
          [] [] [] 1) 0
      = { st := Store.mk [] [TopicDoc.mk 0 "T" none (SyncStatus.mk "*" 0)] [] [] [] 1,
          session := 0, trace := [Event.fetchPage "*", Event.fetchError] } :=
  (c8_fetch_error_terminal (Config.mk 10 10 10) noLookup (fun _ _ => none) 2
    (TopicRef.mk "T" "X") [] (Store.mk [] [TopicDoc.mk 0 "T" none (SyncStatus.mk "*" 0)]
      [] [] [] 1) 0 (TopicDoc.mk 0 "T" none (SyncStatus.mk "*" 0))
    (by decide) (by decide) (by decide) (by decide) rfl).2.1

end AITalent
